import Mathlib

/-!
Shallow embedding of `zpod-template-generator.py` (the zPodFactory template
generator), centred on its context-construction core:

* `sanitize_component_name` models `_sanitize_component_name` (line 40-42):
  `re.sub(r"[^a-zA-Z0-9]", "_", name).strip("_").lower()`.
* `build_template_context` models `_build_template_context` (line 140-209),
  the pure function mapping a zPod record, DNS records, settings and an
  optional extra-variables mapping to the flat template namespace.

Python dictionaries are modelled as association lists in assignment order
where lookup returns the value of the *last* binding for a key (assignment
overwrite therefore has the same observable lookup/key-presence behaviour).
Python exceptions escaping `_build_template_context` are modelled by the
function returning `none`.  IPv4 parsing follows CPython's `ipaddress`
module (`_parse_octet`, `_make_netmask`, `IPv4Network.__init__` with
`strict=False`); IPv6 management networks are not modelled.
-/

/-- JSON-like values flowing through the generator: the zPod record, its
nested components/networks/settings, and every namespace value. -/
inductive Value where
  | null
  | bool (b : Bool)
  | int (n : Int)
  | str (s : String)
  | list (xs : List Value)
  | obj (kvs : List (String × Value))

/-- Python truthiness (`if x:`) for the modelled value forms: `None`, `False`,
`0`, `""`, `[]` and `{}` are falsy, everything else truthy. -/
def truthy : Value → Bool
  | Value.null => false
  | Value.bool b => b
  | Value.int n => n != 0
  | Value.str s => s != ""
  | Value.list xs => !xs.isEmpty
  | Value.obj kvs => !kvs.isEmpty

/-- Lookup in an assignment-ordered association list, returning the value of
the last binding of the key: the observable behaviour of a Python dict that
was built by successive `d[k] = v` assignments appended to the list. -/
def dictGet : List (String × Value) → String → Option Value
  | [], _ => none
  | (k, v) :: rest, key =>
    match dictGet rest key with
    | some v' => some v'
    | none => if k = key then some v else none

/-- Key presence in the modelled dict (`k in d`). -/
def hasKey (kvs : List (String × Value)) (key : String) : Bool :=
  (dictGet kvs key).isSome

/-- Python `d.get(k, default)` on a modelled dict: the stored value if the
key is present, the default otherwise. -/
def objGetD (kvs : List (String × Value)) (key : String) (dflt : Value) : Value :=
  (dictGet kvs key).getD dflt

/-- Python `x.get(k, default)` on an arbitrary value: succeeds only when `x`
is a dict, mirroring the `AttributeError` a non-dict would raise. -/
def pyGet (v : Value) (key : String) (dflt : Value) : Option Value :=
  match v with
  | Value.obj kvs => some (objGetD kvs key dflt)
  | _ => none

/-- ASCII decimal digit test (Python's `str.isascii() and str.isdigit()`
restricted to one character). -/
def isAsciiDigit (c : Char) : Bool := 48 ≤ c.toNat && c.toNat ≤ 57

/-- Numeric value of a list of decimal digits (as for Python `int(s, 10)`). -/
def digitsToNat (l : List Char) : Nat :=
  l.foldl (fun a c => a * 10 + (c.toNat - 48)) 0

/-- Python `s.split(sep)` for a one-character separator. -/
def splitOnChar (sep : Char) : List Char → List (List Char)
  | [] => [[]]
  | c :: cs =>
    let r := splitOnChar sep cs
    if c = sep then [] :: r
    else
      match r with
      | h :: t => (c :: h) :: t
      | [] => [[c]]

/-- CPython `IPv4Address._parse_octet`: a non-empty, all-ASCII-digit string of
at most 3 characters, without leading zeros (except `"0"` itself), whose
value is at most 255. -/
def parse_octet (l : List Char) : Option Nat :=
  if l.isEmpty then none
  else if !l.all isAsciiDigit then none
  else if l.length > 3 then none
  else if l ≠ ['0'] && l.head? = some '0' then none
  else if digitsToNat l ≤ 255 then some (digitsToNat l) else none

/-- CPython `IPv4Address._ip_int_from_string`: exactly four dot-separated
octets combined big-endian into one integer below `2^32`. -/
def parse_ipv4_int (l : List Char) : Option Nat :=
  match splitOnChar '.' l with
  | [a, b, c, d] => do
    let x ← parse_octet a
    let y ← parse_octet b
    let z ← parse_octet c
    let w ← parse_octet d
    return ((x * 256 + y) * 256 + z) * 256 + w
  | _ => none

/-- CPython `_ip_int_from_prefix`: the netmask integer with `p` leading one
bits, `ALL_ONES ^ (ALL_ONES >> p)` for the 32-bit space. -/
def maskOfLen (p : Nat) : Nat := 4294967296 - 2 ^ (32 - p)

/-- CPython `_prefix_from_ip_int`: recover the prefix length from a netmask
integer whose bit pattern is ones followed by zeroes; extensionally, the
unique `p ≤ 32` with `maskOfLen p` equal to the integer, if any. -/
def prefix_from_ip_int (m : Nat) : Option Nat :=
  (List.range 33).find? (fun p => maskOfLen p == m)

/-- CPython `_prefix_from_prefix_string`: an all-ASCII-digit non-empty string
whose value is at most the family's maximum prefix length (32 for IPv4,
128 for IPv6). -/
def prefix_from_prefix_string (maxlen : Nat) (l : List Char) : Option Nat :=
  if !l.isEmpty && l.all isAsciiDigit then
    if digitsToNat l ≤ maxlen then some (digitsToNat l) else none
  else none

/-- CPython `_prefix_from_ip_string`: a dotted-quad netmask, or failing that
a hostmask whose complement is a netmask. -/
def prefix_from_ip_string (l : List Char) : Option Nat :=
  match parse_ipv4_int l with
  | none => none
  | some m =>
    match prefix_from_ip_int m with
    | some p => some p
    | none => prefix_from_ip_int (4294967295 - m)

/-- CPython `IPv4Network._make_netmask` for a string argument: prefix-length
form first, then dotted netmask/hostmask form. -/
def make_netmask (l : List Char) : Option Nat :=
  match prefix_from_prefix_string 32 l with
  | some p => some p
  | none => prefix_from_ip_string l

/-- An IP network as produced by `ipaddress.ip_network`: the (masked)
network address, the prefix length, the family, and — for IPv6 — the zone
id, which CPython keeps on the network address exactly when the parsed
address had no host bits to mask away. -/
structure IPNet where
  network_address : Nat
  prefixlen : Nat
  v6 : Bool
  scope : Option String

/-- The family's bit width: 32 for IPv4, 128 for IPv6. -/
def familyBits (net : IPNet) : Nat := if net.v6 then 128 else 32

/-- CPython `IPv4Network(s, strict=False)` for a string: split the optional
`/netmask` part (at most one `/` permitted, default prefix 32), parse the
address, and mask away the host bits. -/
def parse_ipv4_network (s : String) : Option IPNet :=
  match splitOnChar '/' s.data with
  | [a] => do
    let ip ← parse_ipv4_int a
    return ⟨ip, 32, false, none⟩
  | [a, m] => do
    let ip ← parse_ipv4_int a
    let p ← make_netmask m
    return ⟨ip / 2 ^ (32 - p) * 2 ^ (32 - p), p, false, none⟩
  | _ => none

/-- One ASCII hex digit test (CPython `_HEX_DIGITS`, both cases). -/
def isHexDigitChar (c : Char) : Bool :=
  (48 ≤ c.toNat && c.toNat ≤ 57) || (65 ≤ c.toNat && c.toNat ≤ 70) ||
    (97 ≤ c.toNat && c.toNat ≤ 102)

/-- Numeric value of one hex digit (as for Python `int(s, 16)`). -/
def hexDigitVal (c : Char) : Nat :=
  if c.toNat ≤ 57 then c.toNat - 48
  else if c.toNat ≤ 70 then c.toNat - 55
  else c.toNat - 87

/-- Numeric value of a list of hex digits (as for Python `int(s, 16)`). -/
def hexDigitsToNat (l : List Char) : Nat :=
  l.foldl (fun a c => a * 16 + hexDigitVal c) 0

/-- CPython `IPv6Address._parse_hextet`: a non-empty, all-hex-digit string
of at most 4 characters (the empty string fails in `int(s, 16)`). -/
def parse_hextet (l : List Char) : Option Nat :=
  if !l.all isHexDigitChar then none
  else if l.length > 4 then none
  else if l.isEmpty then none
  else some (hexDigitsToNat l)

/-- Lowercase hex digit character (Python `'%x'`). -/
def hexDigitChar (n : Nat) : Char :=
  if n < 10 then Char.ofNat (48 + n) else Char.ofNat (87 + n)

/-- Python `'%x' % n` for the 16-bit hextet values its callers supply:
lowercase hex without leading zeros. -/
def natToHexChars (n : Nat) : List Char :=
  if n < 16 then [hexDigitChar n]
  else if n < 256 then [hexDigitChar (n / 16), hexDigitChar (n % 16)]
  else if n < 4096 then
    [hexDigitChar (n / 256), hexDigitChar (n / 16 % 16), hexDigitChar (n % 16)]
  else
    [hexDigitChar (n / 4096 % 16), hexDigitChar (n / 256 % 16),
     hexDigitChar (n / 16 % 16), hexDigitChar (n % 16)]

/-- CPython's conversion of an IPv4-style suffix in the last `:`-separated
part (`'.' in parts[-1]`): parse it as an IPv4 address and replace it by its
two hextets in `'%x'` form. -/
def expandIPv4Suffix (parts : List (List Char)) : Option (List (List Char)) :=
  match parts.getLast? with
  | none => some parts
  | some lastPart =>
    if lastPart.contains '.' then
      match parse_ipv4_int lastPart with
      | none => none
      | some ip4 =>
        some (parts.dropLast ++ [natToHexChars (ip4 / 65536), natToHexChars (ip4 % 65536)])
    else some parts

/-- The indices of empty parts strictly between the endpoints — CPython's
scan for a `::` run marker. -/
def innerEmptyIndices (parts : List (List Char)) : List Nat :=
  (List.range parts.length).filter
    (fun i => decide (1 ≤ i) && decide (i + 1 < parts.length) &&
      (parts.getD i [' ']).isEmpty)

/-- CPython's hextet-combining loop: `ip_int <<= 16; ip_int |= hextet`. -/
def foldHextets (acc : Nat) : List (List Char) → Option Nat
  | [] => some acc
  | p :: rest =>
    match parse_hextet p with
    | none => none
    | some h => foldHextets (acc * 65536 + h) rest

/-- The `::` arm of CPython's hextet combination: `hi` hextets, the skipped
zero run, then `lo` hextets; at least one part must have been skipped. -/
def parse_ipv6_combine (parts : List (List Char)) (hi lo : Nat) : Option Nat :=
  if 8 ≤ hi + lo then none
  else do
    let hiV ← foldHextets 0 (parts.take hi)
    foldHextets (hiV * 2 ^ (16 * (8 - (hi + lo)))) (parts.drop (parts.length - lo))

/-- The endpoint-colon rules around an inner `::` at index `skip`: a leading
or trailing lone `:` is rejected unless it is part of the `::`. -/
def parse_ipv6_skip (parts : List (List Char)) (skip : Nat) : Option Nat :=
  let hi := if (parts.headD [' ']).isEmpty then skip - 1 else skip
  let lo :=
    if (parts.getLastD [' ']).isEmpty then parts.length - skip - 2
    else parts.length - skip - 1
  if (parts.headD [' ']).isEmpty && hi ≠ 0 then none
  else if (parts.getLastD [' ']).isEmpty && lo ≠ 0 then none
  else parse_ipv6_combine parts hi lo

/-- CPython `IPv6Address._ip_int_from_string`: `:` parts with at most one
inner `::` marker, endpoint colon rules, an optional IPv4-style suffix, and
hextets combined around the skipped zero run. -/
def parse_ipv6_int (l : List Char) : Option Nat :=
  if l.isEmpty then none
  else
    let parts0 := splitOnChar ':' l
    if parts0.length < 3 then none
    else
      match expandIPv4Suffix parts0 with
      | none => none
      | some parts =>
        if parts.length > 9 then none
        else
          match innerEmptyIndices parts with
          | [] =>
            if parts.length ≠ 8 then none
            else if (parts.headD [' ']).isEmpty then none
            else if (parts.getLastD [' ']).isEmpty then none
            else foldHextets 0 parts
          | [skip] => parse_ipv6_skip parts skip
          | _ => none

/-- CPython `IPv6Address._split_scope_id`: split at the first `%`; a present
zone id must be non-empty and contain no further `%`. -/
def splitScopeId (l : List Char) : Option (List Char × Option (List Char)) :=
  match splitOnChar '%' l with
  | [a] => some (a, none)
  | [a, z] => if z.isEmpty then none else some (a, some z)
  | _ => none

/-- CPython `IPv6Network(s, strict=False)` for a string: optional `/prefix`
(prefix-length form only for IPv6), optional zone id, parse, and mask; the
zone id survives exactly when masking leaves the address unchanged (CPython
keeps the original scoped address object in that case). -/
def parse_ipv6_network (s : String) : Option IPNet :=
  match splitOnChar '/' s.data with
  | [a] => do
    let az ← splitScopeId a
    let ip ← parse_ipv6_int az.1
    return ⟨ip, 128, true, az.2.map String.mk⟩
  | [a, m] => do
    let az ← splitScopeId a
    let ip ← parse_ipv6_int az.1
    let p ← prefix_from_prefix_string 128 m
    let masked := ip / 2 ^ (128 - p) * 2 ^ (128 - p)
    return ⟨masked, p, true, if masked = ip then az.2.map String.mk else none⟩
  | _ => none

/-- `ipaddress.ip_network(v, strict=False)` on the value forms a `cidr`
field can carry: strings try the IPv4 family then fall back to IPv6 exactly
as `ip_network` does; integers and booleans denote a host network of the
first family whose range admits them; `None`/lists/dicts (whose `str()`
parses as neither family) are `none`, the caught `ValueError`. -/
def ip_network_of_value (v : Value) : Option IPNet :=
  match v with
  | Value.str s =>
    match parse_ipv4_network s with
    | some net => some net
    | none => parse_ipv6_network s
  | Value.int n =>
    if 0 ≤ n && n < 4294967296 then some ⟨n.toNat, 32, false, none⟩
    else if 0 ≤ n && n < 340282366920938463463374607431768211456 then
      some ⟨n.toNat, 128, true, none⟩
    else none
  | Value.bool b => some ⟨if b then 1 else 0, 32, false, none⟩
  | _ => none

/-- Python `str(IPv4Address(n))`: the dotted-quad rendering. -/
def ipv4_to_string (n : Nat) : String :=
  toString (n / 16777216 % 256) ++ "." ++ toString (n / 65536 % 256) ++ "." ++
    toString (n / 256 % 256) ++ "." ++ toString (n % 256)

/-- Python `s.rsplit(".", 1)[0]`: everything before the last dot, or the
whole string when it contains no dot. -/
def rsplit_drop_last (s : String) : String :=
  match List.dropWhile (fun c => !(c == '.')) s.data.reverse with
  | [] => s
  | _ :: rest => String.mk rest.reverse

/-- The eight 16-bit hextets of an IPv6 integer, each in Python `'%x'`
form (CPython `_string_from_ip_int` before compression). -/
def hextetStrings (n : Nat) : List String :=
  [String.mk (natToHexChars (n / 2 ^ 112 % 65536)),
   String.mk (natToHexChars (n / 2 ^ 96 % 65536)),
   String.mk (natToHexChars (n / 2 ^ 80 % 65536)),
   String.mk (natToHexChars (n / 2 ^ 64 % 65536)),
   String.mk (natToHexChars (n / 2 ^ 48 % 65536)),
   String.mk (natToHexChars (n / 2 ^ 32 % 65536)),
   String.mk (natToHexChars (n / 2 ^ 16 % 65536)),
   String.mk (natToHexChars (n % 65536))]

/-- The scan of CPython `_compress_hextets`: the start and length of the
best (longest, earliest) run of `"0"` hextets.  State: current index `i`,
current run start `cs` and length `cl`, best start `bs` and length `bl`. -/
def bestRunAux : List String → Nat → Nat → Nat → Nat → Nat → Nat × Nat
  | [], _, _, _, bs, bl => (bs, bl)
  | h :: rest, i, cs, cl, bs, bl =>
    if h = "0" then
      let cs' := if cl = 0 then i else cs
      let cl' := cl + 1
      if bl < cl' then bestRunAux rest (i + 1) cs' cl' cs' cl'
      else bestRunAux rest (i + 1) cs' cl' bs bl
    else bestRunAux rest (i + 1) cs 0 bs bl

/-- CPython `_compress_hextets`: replace the best zero run (only if longer
than one hextet) by an empty marker, padding an empty marker at a touched
endpoint so the final `':'.join` renders `::`. -/
def compressHextets (hs : List String) : List String :=
  let bsl := bestRunAux hs 0 0 0 0 0
  if 1 < bsl.2 then
    let e := bsl.1 + bsl.2
    let hs2 := if e = hs.length then hs ++ [""] else hs
    let hs3 := hs2.take bsl.1 ++ [""] ++ hs2.drop e
    if bsl.1 = 0 then "" :: hs3 else hs3
  else hs

/-- Python `':'.join(parts)`. -/
def joinColon : List String → String
  | [] => ""
  | [s] => s
  | s :: rest => s ++ ":" ++ joinColon rest

/-- Python `str(IPv6Address(n))` for an unscoped address: the compressed
lowercase-hex rendering. -/
def ipv6_to_string (n : Nat) : String := joinColon (compressHextets (hextetStrings n))

/-- `str` of an unscoped address of the given family. -/
def addressString (v6 : Bool) (n : Nat) : String :=
  if v6 then ipv6_to_string n else ipv4_to_string n

/-- Python `str(net.network_address)`: the family rendering plus, for a
scoped IPv6 address, `'%' + zone`. -/
def netAddressString (net : IPNet) : String :=
  addressString net.v6 net.network_address ++
    (match net.scope with
     | some z => "%" ++ z
     | none => "")

/-- Python `str(net.netmask)`: the all-ones-prefix integer of the family,
rendered unscoped. -/
def netmaskString (net : IPNet) : String :=
  addressString net.v6
    (2 ^ familyBits net - 2 ^ (familyBits net - net.prefixlen))


/-- ASCII alphanumeric test, the character class `[a-zA-Z0-9]` of the
sanitizer's regular expression. -/
def isAsciiAlnum (c : Char) : Bool :=
  (48 ≤ c.toNat && c.toNat ≤ 57) ||
  (65 ≤ c.toNat && c.toNat ≤ 90) ||
  (97 ≤ c.toNat && c.toNat ≤ 122)

/-- Single-character action of `re.sub(r"[^a-zA-Z0-9]", "_", ·)`. -/
def subChar (c : Char) : Char :=
  if isAsciiAlnum c then c else '_'

/-- Underscore test used by `.strip("_")`. -/
def isUnderscore (c : Char) : Bool := c == '_'

/-- Python `s.strip("_")` on the character list: drop leading underscores,
then trailing ones. -/
def stripUnderscores (l : List Char) : List Char :=
  List.rdropWhile isUnderscore (List.dropWhile isUnderscore l)

/-- Model of `_sanitize_component_name` (line 40-42 of the source):
`re.sub(r"[^a-zA-Z0-9]", "_", name).strip("_").lower()`.  After the
substitution every character is ASCII, so Python's Unicode `str.lower`
coincides with ASCII lowercasing (`Char.toLower`). -/
def sanitize_component_name (name : String) : String :=
  String.mk (List.map Char.toLower (stripUnderscores (List.map subChar name.data)))




/-- Characters that can appear after the regex substitution: ASCII
alphanumerics and the underscore. -/
def isSubOutput (c : Char) : Bool := isAsciiAlnum c || isUnderscore c






/-- Step 1 of `_build_template_context` (lines 142-162): the fixed root
passthrough entries, in assignment order.  `zkvs` is the zPod dict's
binding list. -/
def rootContext (zkvs : List (String × Value)) (zpod_dns_records : List Value)
    (settings : List Value) : List (String × Value) :=
  [("zpod_id", objGetD zkvs "id" Value.null),
   ("zpod_name", objGetD zkvs "name" Value.null),
   ("zpod_description", objGetD zkvs "description" Value.null),
   ("zpod_domain", objGetD zkvs "domain" Value.null),
   ("zpod_password", objGetD zkvs "password" Value.null),
   ("zpod_profile", objGetD zkvs "profile" Value.null),
   ("zpod_status", objGetD zkvs "status" Value.null),
   ("zpod_creation_date", objGetD zkvs "creation_date" Value.null),
   ("zpod_last_modified_date", objGetD zkvs "last_modified_date" Value.null),
   ("zpod_components", objGetD zkvs "components" (Value.list [])),
   ("zpod_networks", objGetD zkvs "networks" (Value.list [])),
   ("zpod_dns_records", Value.list zpod_dns_records),
   ("zpod_endpoint", objGetD zkvs "endpoint" Value.null),
   ("zpod_features", objGetD zkvs "features" Value.null),
   ("zpod_permissions", objGetD zkvs "permissions" (Value.list [])),
   ("zpod_settings", Value.list settings)]

/-- One iteration of the settings loop (lines 165-171): the context entries
it appends and the `settings_by_name` entries it records.  A non-dict
setting (`AttributeError`) or a truthy non-string name (`TypeError` inside
`re.sub`) aborts with `none`. -/
def settingEntry (setting : Value) :
    Option (List (String × Value) × List (String × Value)) :=
  match setting with
  | Value.obj kvs =>
    match objGetD kvs "name" (Value.str "") with
    | Value.str s =>
      if s = "" then some ([], [])
      else
        some ([("zpod_setting_" ++ sanitize_component_name s, objGetD kvs "value" Value.null)],
              [(s, objGetD kvs "value" Value.null)])
    | v => if truthy v then none else some ([], [])
  | _ => none

/-- The whole settings loop, accumulating context entries and the
`settings_by_name` dict in iteration order. -/
def settingsStep : List Value → Option (List (String × Value) × List (String × Value))
  | [] => some ([], [])
  | s :: rest => do
    let (c, b) ← settingEntry s
    let (cs, bs) ← settingsStep rest
    return (c ++ cs, b ++ bs)

/-- The management-network derivation (lines 173-185).  The whole `try` body
is modelled: a failed CIDR parse is the caught `ValueError` and contributes
nothing; a parse of the all-ones network address raises the caught
`AddressValueError` (a `ValueError`) at `network_address + 1`, *after*
`zpod_subnet` was already assigned; subscripting a truthy non-list `networks`
value or calling `.get` on a non-dict first element raises an error the
`except ValueError` clause does not catch.  The gateway
`network_address + 1` is an unscoped address of the same family. -/
def networkStep (networksVal : Value) : Option (List (String × Value)) :=
  if truthy networksVal then
    match networksVal with
    | Value.list (Value.obj nkvs :: _) =>
      match ip_network_of_value (objGetD nkvs "cidr" (Value.str "")) with
      | none => some []
      | some net =>
        if net.network_address + 1 < 2 ^ familyBits net then
          some [("zpod_subnet", Value.str (rsplit_drop_last (netAddressString net))),
                ("zpod_gateway", Value.str (addressString net.v6 (net.network_address + 1))),
                ("zpod_netmask", Value.str (netmaskString net)),
                ("zpod_netprefix", Value.int net.prefixlen)]
        else
          some [("zpod_subnet", Value.str (rsplit_drop_last (netAddressString net)))]
    | _ => none
  else some []

/-- One iteration of the component loop (lines 189-196): the context entries
it appends and, when this component's name is exactly `"zbox"`, the new
tracked ip (`comp.get("ip")`).  Non-dict components or component infos and
truthy non-string names abort with `none` as in `settingEntry`. -/
def componentEntry (comp : Value) : Option (List (String × Value) × Option Value) :=
  match comp with
  | Value.obj kvs =>
    match objGetD kvs "component" (Value.obj []) with
    | Value.obj ikvs =>
      match objGetD ikvs "component_name" (Value.str "") with
      | Value.str s =>
        if s = "" then some ([], none)
        else
          some ([("zpod_component_" ++ sanitize_component_name s, comp)],
                if s = "zbox" then some (objGetD kvs "ip" Value.null) else none)
      | v => if truthy v then none else some ([], none)
    | _ => none
  | _ => none

/-- The component loop with the running `zbox_ip` accumulator. -/
def componentsFold : List Value → Value → Option (List (String × Value) × Value)
  | [], zboxIp => some ([], zboxIp)
  | comp :: rest, zboxIp => do
    let (c, upd) ← componentEntry comp
    let (cs, z) ← componentsFold rest (upd.getD zboxIp)
    return (c ++ cs, z)

/-- Iterating `zpod.get("components", [])` (line 189): lists iterate their
elements; an empty dict or empty string iterates vacuously; any other
non-list value raises before or during the loop. -/
def componentsStep (componentsVal : Value) : Option (List (String × Value) × Value) :=
  match componentsVal with
  | Value.list xs => componentsFold xs Value.null
  | Value.obj [] => some ([], Value.null)
  | Value.str "" => some ([], Value.null)
  | _ => none

/-- Python `str()` as the `zpod_portgroup` f-string applies it to
`zpod["name"]`; exact for the scalar forms (the data model's `name` is a
string).  A container here would need Python `repr`, which no claim
exercises; a placeholder keeps the function total. -/
def pythonStr : Value → String
  | Value.null => "None"
  | Value.bool true => "True"
  | Value.bool false => "False"
  | Value.int n => toString n
  | Value.str s => s
  | Value.list _ => "<container repr not modelled>"
  | Value.obj _ => "<container repr not modelled>"

/-- Step 5 of `_build_template_context` (lines 198-203): the computed
infrastructure entries, in assignment order. -/
def infraContext (nameV : Value) (zboxIp : Value)
    (byName : List (String × Value)) : List (String × Value) :=
  [("zpod_portgroup", Value.str ("zpod-" ++ pythonStr nameV ++ "-segment")),
   ("zpod_dns", zboxIp),
   ("zpod_nfs", zboxIp),
   ("zpod_ntp", objGetD byName "zpodfactory_host" Value.null),
   ("zpod_sshkey", objGetD byName "zpodfactory_ssh_key" Value.null)]

/-- Model of `_build_template_context` (lines 140-209).  Returns `none` when
the Python function would raise: a non-dict zPod, an ill-typed settings or
components structure, a truthy non-list networks value, or — the one raise
reachable on well-typed input — a zPod dict without the `"name"` key, which
makes `zpod["name"]` in the `zpod_portgroup` f-string (line 199) raise
`KeyError`.  `extra_vars` entries are appended last, so their bindings win
every lookup (`context.update`, lines 206-207). -/
def build_template_context (zpod : Value) (zpod_dns_records : List Value)
    (settings : List Value) (extra_vars : Option (List (String × Value))) :
    Option (List (String × Value)) :=
  match zpod with
  | Value.obj zkvs => do
    let sb ← settingsStep settings
    let netCtx ← networkStep (objGetD zkvs "networks" (Value.list []))
    let cz ← componentsStep (objGetD zkvs "components" (Value.list []))
    let nameV ← dictGet zkvs "name"
    return rootContext zkvs zpod_dns_records settings ++ sb.1 ++ netCtx ++
      cz.1 ++ infraContext nameV cz.2 sb.2 ++ extra_vars.getD []
  | _ => none

/-- Lookup of one namespace key through the whole build: `none` when the
build itself fails or the key is absent. -/
def ctxGet (zpod : Value) (zpod_dns_records : List Value) (settings : List Value)
    (extra_vars : Option (List (String × Value))) (key : String) : Option Value :=
  (build_template_context zpod zpod_dns_records settings extra_vars).bind
    (fun ctx => dictGet ctx key)

/-- The sixteen keys of step 1, the "root passthrough" keys of the
specification. -/
def rootPassthroughKeys : List String :=
  ["zpod_id", "zpod_name", "zpod_description", "zpod_domain", "zpod_password",
   "zpod_profile", "zpod_status", "zpod_creation_date", "zpod_last_modified_date",
   "zpod_components", "zpod_networks", "zpod_dns_records", "zpod_endpoint",
   "zpod_features", "zpod_permissions", "zpod_settings"]

/-- The nullable root fields the specification calls the optional root
fields: the ones read with `zpod.get(field)` and a `None` default. -/
def optionalRootFields : List String :=
  ["id", "name", "description", "domain", "password", "profile", "status",
   "creation_date", "last_modified_date", "endpoint", "features"]

/-- The four derived network keys of step 3. -/
def networkDerivedKeys : List String :=
  ["zpod_subnet", "zpod_gateway", "zpod_netmask", "zpod_netprefix"]

/-- The five computed infrastructure keys of step 5. -/
def infraKeys : List String :=
  ["zpod_portgroup", "zpod_dns", "zpod_nfs", "zpod_ntp", "zpod_sshkey"]

/-- Claim-side reading of C4: a component whose nested `component_name` is
exactly the string `"zbox"`. -/
def isZboxComponent (comp : Value) : Bool :=
  match comp with
  | Value.obj kvs =>
    match objGetD kvs "component" (Value.obj []) with
    | Value.obj ikvs =>
      match objGetD ikvs "component_name" (Value.str "") with
      | Value.str s => s == "zbox"
      | _ => false
    | _ => false
  | _ => false

/-- Claim-side reading of C4: the `ip` field of the last zbox component
(null when there is none or it lacks an `ip`). -/
def lastZboxIp (comps : List Value) : Value :=
  match (comps.filter isZboxComponent).getLast? with
  | none => Value.null
  | some (Value.obj kvs) => objGetD kvs "ip" Value.null
  | some _ => Value.null

/-- Spec-side strip for C8, written with direct recursion instead of
`dropWhile`: remove leading underscores, and trailing ones via reversal. -/
def dropLeadingUnderscores : List Char → List Char
  | [] => []
  | c :: cs => if c = '_' then dropLeadingUnderscores cs else c :: cs

/-- Spec-side sanitization for C8, following the specification's wording:
replace every character not in `[A-Za-z0-9]` with `_`, strip leading and
trailing `_` characters, then lowercase. -/
def sanitizeSpec (s : String) : String :=
  let replaced := s.data.map (fun c => if isAsciiAlnum c then c else '_')
  let stripped :=
    (dropLeadingUnderscores (dropLeadingUnderscores replaced).reverse).reverse
  String.mk (stripped.map Char.toLower)

/-- Well-typed setting: a dict whose `name` (defaulted to `""`) is a string
or falsy — exactly the settings `settingEntry` processes without raising. -/
def wtSetting (t : Value) : Bool :=
  match t with
  | Value.obj kvs =>
    match objGetD kvs "name" (Value.str "") with
    | Value.str _ => true
    | v => !truthy v
  | _ => false

/-- Well-typed component: a dict whose `component` (defaulted to `{}`) is a
dict whose `component_name` (defaulted to `""`) is a string or falsy. -/
def wtComponent (c : Value) : Bool :=
  match c with
  | Value.obj kvs =>
    match objGetD kvs "component" (Value.obj []) with
    | Value.obj ikvs =>
      match objGetD ikvs "component_name" (Value.str "") with
      | Value.str _ => true
      | v => !truthy v
    | _ => false
  | _ => false

/-- Well-typed components field: a list of well-typed components (or one of
the vacuously iterable empty values). -/
def wtComponentsVal (v : Value) : Bool :=
  match v with
  | Value.list xs => xs.all wtComponent
  | Value.obj [] => true
  | Value.str "" => true
  | _ => false

/-- Well-typed networks field: falsy (skipped), or a list whose first
element is a dict — the shapes on which the network derivation cannot raise
an uncaught error, whatever the `cidr` holds. -/
def wtNetworksVal (v : Value) : Bool :=
  if truthy v then
    match v with
    | Value.list (Value.obj _ :: _) => true
    | _ => false
  else true

/-- The `ip` field a component contributes when tracked as the zbox
(`comp.get("ip")`, null for the unreachable non-dict case). -/
def componentIp (c : Value) : Value :=
  match c with
  | Value.obj kvs => objGetD kvs "ip" Value.null
  | _ => Value.null

/-- Context keys one setting writes (empty when it writes none or raises). -/
def settingCtxKeys (t : Value) : List String :=
  match settingEntry t with
  | some (c, _) => c.map Prod.fst
  | none => []

/-- Names one setting records in the internal by-name lookup. -/
def settingByNames (t : Value) : List String :=
  match settingEntry t with
  | some (_, b) => b.map Prod.fst
  | none => []

/-- Context keys one component writes. -/
def componentCtxKeys (t : Value) : List String :=
  match componentEntry t with
  | some (c, _) => c.map Prod.fst
  | none => []

/-- A zPod whose only field is its name: every optional root field absent,
all collections empty by default. -/
def zpodNameOnly : Value := Value.obj [("name", Value.str "mypod")]

/-- A zPod with the specification's example management network. -/
def zpodExampleNetwork : Value :=
  Value.obj [("name", Value.str "demo"),
             ("networks", Value.list [Value.obj [("cidr", Value.str "10.1.2.3/24")]])]

/-- A zPod whose first network parses to the all-ones network address. -/
def zpodAllOnesNetwork : Value :=
  Value.obj [("name", Value.str "demo"),
             ("networks", Value.list [Value.obj [("cidr", Value.str "255.255.255.255/32")]])]

/-- A zPod whose management network is an IPv6 CIDR. -/
def zpodIPv6Network : Value :=
  Value.obj [("name", Value.str "demo"),
             ("networks", Value.list [Value.obj [("cidr", Value.str "fe80::/64")]])]

/-- A zPod with the specification's malformed-CIDR example. -/
def zpodBadCidr : Value :=
  Value.obj [("name", Value.str "demo"),
             ("networks", Value.list [Value.obj [("cidr", Value.str "not-a-cidr")]])]

/-- The specification's example zbox component. -/
def zboxExampleComponent : Value :=
  Value.obj [("component", Value.obj [("component_name", Value.str "zbox")]),
             ("ip", Value.str "10.1.2.10")]

/-- A zPod carrying the example zbox component. -/
def zpodZbox : Value :=
  Value.obj [("name", Value.str "demo"),
             ("components", Value.list [zboxExampleComponent])]

/-- A second zbox component with a different ip, for duplicate tie-breaks. -/
def zboxSecondComponent : Value :=
  Value.obj [("component", Value.obj [("component_name", Value.str "zbox")]),
             ("ip", Value.str "10.1.2.99")]

/-- A component whose raw name "Zbox" sanitizes to "zbox" without being the
literal string "zbox". -/
def mixedCaseZboxComponent : Value :=
  Value.obj [("component", Value.obj [("component_name", Value.str "Zbox")]),
             ("ip", Value.str "10.1.2.10")]

/-- A zPod carrying two components whose names share the sanitized form
"zbox". -/
def zpodMixedZbox : Value :=
  Value.obj [("name", Value.str "demo"),
             ("components", Value.list [mixedCaseZboxComponent, zboxSecondComponent])]

/-- Two settings sharing the name zpodfactory_host with different values. -/
def duplicateSettings : List Value :=
  [Value.obj [("name", Value.str "zpodfactory_host"), ("value", Value.str "old.local")],
   Value.obj [("name", Value.str "zpodfactory_host"), ("value", Value.str "ntp.local")]]


theorem dictGet_append (xs ys : List (String × Value)) (key : String) :
    dictGet (xs ++ ys) key =
      match dictGet ys key with
      | some v => some v
      | none => dictGet xs key := by
  induction xs with
  | nil =>
    simp only [List.nil_append]
    cases h : dictGet ys key <;> simp [dictGet, h]
  | cons hd tl ih =>
    obtain ⟨k, v⟩ := hd
    simp only [List.cons_append, dictGet, List.append_eq]
    rw [ih]
    cases dictGet ys key <;> rfl

theorem toNat_ofNat_of_le (n : Nat) (h1 : 97 ≤ n) (h2 : n ≤ 122) :
    (Char.ofNat n).toNat = n := by
  have hv : n.isValidChar := Or.inl (by omega)
  simp [Char.ofNat, hv]
  rfl

theorem toLower_toLower (c : Char) : c.toLower.toLower = c.toLower := by
  unfold Char.toLower
  by_cases h : c.toNat ≥ 65 ∧ c.toNat ≤ 90
  · rw [if_pos h]
    have ht : (Char.ofNat (c.toNat + 32)).toNat = c.toNat + 32 :=
      toNat_ofNat_of_le _ (by omega) (by omega)
    rw [if_neg (by omega)]
  · rw [if_neg h, if_neg h]

theorem toLower_eq_underscore_iff (c : Char) : (c.toLower = '_') ↔ (c = '_') := by
  constructor
  · intro h
    unfold Char.toLower at h
    by_cases hc : c.toNat ≥ 65 ∧ c.toNat ≤ 90
    · rw [if_pos hc] at h
      have ht : (Char.ofNat (c.toNat + 32)).toNat = c.toNat + 32 :=
        toNat_ofNat_of_le _ (by omega) (by omega)
      have : ('_' : Char).toNat = 95 := rfl
      rw [h] at ht
      omega
    · rwa [if_neg hc] at h
  · intro h; rw [h]; rfl

theorem subChar_isSubOutput (c : Char) : isSubOutput (subChar c) := by
  unfold subChar
  by_cases h : isAsciiAlnum c
  · simp [isSubOutput, h]
  · simp [h, isSubOutput, isUnderscore]

theorem toLower_isSubOutput (c : Char) (h : isSubOutput c) :
    isSubOutput c.toLower := by
  unfold Char.toLower
  by_cases hc : c.toNat ≥ 65 ∧ c.toNat ≤ 90
  · rw [if_pos hc]
    have ht : (Char.ofNat (c.toNat + 32)).toNat = c.toNat + 32 :=
      toNat_ofNat_of_le _ (by omega) (by omega)
    simp only [isSubOutput, isAsciiAlnum, Bool.or_eq_true, Bool.and_eq_true,
      decide_eq_true_eq] at *
    omega
  · rwa [if_neg hc]

theorem subChar_fix_of_isSubOutput (c : Char) (h : isSubOutput c) :
    subChar c = c := by
  unfold subChar
  simp only [isSubOutput, Bool.or_eq_true] at h
  rcases h with h | h
  · rw [if_pos h]
  · have : c = '_' := by
      simpa [isUnderscore] using h
    subst this
    rfl

theorem toLower_fix_of_lower (c : Char) (h : ¬(c.toNat ≥ 65 ∧ c.toNat ≤ 90)) :
    c.toLower = c := by
  unfold Char.toLower
  rw [if_neg h]

theorem toLower_not_upper (c : Char) :
    ¬(c.toLower.toNat ≥ 65 ∧ c.toLower.toNat ≤ 90) := by
  unfold Char.toLower
  by_cases hc : c.toNat ≥ 65 ∧ c.toNat ≤ 90
  · rw [if_pos hc]
    have ht : (Char.ofNat (c.toNat + 32)).toNat = c.toNat + 32 :=
      toNat_ofNat_of_le _ (by omega) (by omega)
    omega
  · rw [if_neg hc]; exact hc

theorem dictGet_eq_none_of_not_mem_keys (kvs : List (String × Value)) (key : String)
    (h : key ∉ kvs.map Prod.fst) : dictGet kvs key = none := by
  induction kvs with
  | nil => rfl
  | cons hd tl ih =>
    obtain ⟨k, v⟩ := hd
    simp only [List.map_cons, List.mem_cons] at h
    push_neg at h
    simp only [dictGet, ih h.2]
    rw [if_neg (fun hk => h.1 hk.symm)]

theorem mem_keys_of_dictGet_isSome (kvs : List (String × Value)) (key : String)
    (h : (dictGet kvs key).isSome = true) : key ∈ kvs.map Prod.fst := by
  by_contra hmem
  rw [dictGet_eq_none_of_not_mem_keys kvs key hmem] at h
  simp at h

theorem hasKey_append (xs ys : List (String × Value)) (key : String)
    (h : hasKey (xs ++ ys) key = true) :
    hasKey xs key = true ∨ hasKey ys key = true := by
  unfold hasKey at *
  rw [dictGet_append] at h
  cases hy : dictGet ys key with
  | some v => right; simp [hy]
  | none => left; rw [hy] at h; exact h

theorem string_append_ne_of_not_isPrefixOf (pre k : String)
    (h : List.isPrefixOf pre.data k.data = false) (x : String) :
    pre ++ x ≠ k := by
  intro heq
  have hd : pre.data ++ x.data = k.data := by
    rw [← String.data_append, heq]
  have hp : pre.data <+: k.data := ⟨x.data, hd⟩
  rw [← List.isPrefixOf_iff_prefix] at hp
  rw [h] at hp
  exact Bool.false_ne_true hp

theorem setting_key_ne_component_key (x y : String) :
    "zpod_setting_" ++ x ≠ "zpod_component_" ++ y := by
  intro heq
  have hd : "zpod_setting_".data ++ x.data = "zpod_component_".data ++ y.data := by
    rw [← String.data_append, ← String.data_append, heq]
  have h1 : "zpod_setting_".data = ['z', 'p', 'o', 'd', '_', 's', 'e', 't', 't', 'i', 'n', 'g', '_'] := rfl
  have h2 : "zpod_component_".data =
      ['z', 'p', 'o', 'd', '_', 'c', 'o', 'm', 'p', 'o', 'n', 'e', 'n', 't', '_'] := rfl
  rw [h1, h2] at hd
  simp at hd

theorem settingsStep_append (xs ys : List Value) :
    settingsStep (xs ++ ys) =
      match settingsStep xs, settingsStep ys with
      | some sb1, some sb2 => some (sb1.1 ++ sb2.1, sb1.2 ++ sb2.2)
      | _, _ => none := by
  induction xs with
  | nil =>
    cases h : settingsStep ys <;> simp [settingsStep, h]
  | cons hd tl ih =>
    simp only [List.cons_append, settingsStep, List.append_eq]
    cases he : settingEntry hd with
    | none => simp
    | some cb =>
      obtain ⟨c, b⟩ := cb
      rw [ih]
      cases ht : settingsStep tl <;> cases hy : settingsStep ys <;>
        simp [List.append_assoc]

theorem settingEntry_cases (t : Value) (c b : List (String × Value))
    (h : settingEntry t = some (c, b)) :
    (c = [] ∧ b = []) ∨
    ∃ kvs s, t = Value.obj kvs ∧ s ≠ "" ∧
      objGetD kvs "name" (Value.str "") = Value.str s ∧
      c = [("zpod_setting_" ++ sanitize_component_name s, objGetD kvs "value" Value.null)] ∧
      b = [(s, objGetD kvs "value" Value.null)] := by
  cases t with
  | obj kvs =>
    simp only [settingEntry] at h
    cases hn : objGetD kvs "name" (Value.str "") with
    | str s =>
      rw [hn] at h
      by_cases hs : s = ""
      · simp [hs] at h
        exact Or.inl ⟨h.1, h.2⟩
      · simp [hs] at h
        exact Or.inr ⟨kvs, s, rfl, hs, hn, h.1.symm, h.2.symm⟩
    | null =>
      rw [hn] at h; simp [truthy] at h
      exact Or.inl ⟨h.1, h.2⟩
    | bool bb =>
      rw [hn] at h
      cases bb <;> simp [truthy] at h
      exact Or.inl ⟨h.1, h.2⟩
    | int n =>
      rw [hn] at h
      by_cases hz : n = 0
      · subst hz; simp [truthy] at h
        exact Or.inl ⟨h.1, h.2⟩
      · simp [truthy, hz] at h
    | list xs =>
      rw [hn] at h
      cases xs <;> simp [truthy] at h
      exact Or.inl ⟨h.1, h.2⟩
    | obj okvs =>
      rw [hn] at h
      cases okvs <;> simp [truthy] at h
      exact Or.inl ⟨h.1, h.2⟩
  | null => simp [settingEntry] at h
  | bool bb => simp [settingEntry] at h
  | int n => simp [settingEntry] at h
  | str s => simp [settingEntry] at h
  | list xs => simp [settingEntry] at h

theorem settingsStep_cons (hd : Value) (tl : List Value) :
    settingsStep (hd :: tl) =
      match settingEntry hd, settingsStep tl with
      | some cb, some sb => some (cb.1 ++ sb.1, cb.2 ++ sb.2)
      | _, _ => none := by
  simp only [settingsStep]
  cases he : settingEntry hd with
  | none => simp
  | some cb =>
    obtain ⟨c, b⟩ := cb
    cases ht : settingsStep tl <;> simp

theorem settingsStep_key_shape (l : List Value)
    (sb : List (String × Value) × List (String × Value))
    (h : settingsStep l = some sb) (p : String × Value) (hp : p ∈ sb.1) :
    ∃ x, p.1 = "zpod_setting_" ++ x := by
  induction l generalizing sb with
  | nil =>
    simp [settingsStep] at h
    rw [← h] at hp
    simp at hp
  | cons hd tl ih =>
    rw [settingsStep_cons] at h
    cases he : settingEntry hd with
    | none => rw [he] at h; simp at h
    | some cb =>
      cases ht : settingsStep tl with
      | none => rw [he, ht] at h; simp at h
      | some sb' =>
        rw [he, ht] at h
        simp at h
        rw [← h] at hp
        simp at hp
        rcases hp with hp | hp
        · rcases settingEntry_cases hd cb.1 cb.2 (by rw [he]) with ⟨hc, _⟩ | ⟨kvs, s, _, _, _, hc, _⟩
          · rw [hc] at hp; simp at hp
          · rw [hc] at hp
            simp at hp
            exact ⟨sanitize_component_name s, by rw [hp]⟩
        · exact ih sb' ht hp

theorem settingsStep_ctx_get_none (l : List Value)
    (sb : List (String × Value) × List (String × Value))
    (h : settingsStep l = some sb) (key : String)
    (hK : ∀ t ∈ l, key ∉ settingCtxKeys t) : dictGet sb.1 key = none := by
  induction l generalizing sb with
  | nil =>
    simp [settingsStep] at h
    rw [← h]
    rfl
  | cons hd tl ih =>
    rw [settingsStep_cons] at h
    cases he : settingEntry hd with
    | none => rw [he] at h; simp at h
    | some cb =>
      cases ht : settingsStep tl with
      | none => rw [he, ht] at h; simp at h
      | some sb' =>
        rw [he, ht] at h
        simp at h
        rw [← h]
        rw [dictGet_append]
        rw [ih sb' ht (fun t htl => hK t (List.mem_cons_of_mem hd htl))]
        apply dictGet_eq_none_of_not_mem_keys
        have hk0 := hK hd (List.mem_cons_self hd tl)
        simpa [settingCtxKeys, he] using hk0

theorem settingsStep_byname_get_none (l : List Value)
    (sb : List (String × Value) × List (String × Value))
    (h : settingsStep l = some sb) (nm : String)
    (hN : ∀ t ∈ l, nm ∉ settingByNames t) : dictGet sb.2 nm = none := by
  induction l generalizing sb with
  | nil =>
    simp [settingsStep] at h
    rw [← h]
    rfl
  | cons hd tl ih =>
    rw [settingsStep_cons] at h
    cases he : settingEntry hd with
    | none => rw [he] at h; simp at h
    | some cb =>
      cases ht : settingsStep tl with
      | none => rw [he, ht] at h; simp at h
      | some sb' =>
        rw [he, ht] at h
        simp at h
        rw [← h]
        rw [dictGet_append]
        rw [ih sb' ht (fun t htl => hN t (List.mem_cons_of_mem hd htl))]
        apply dictGet_eq_none_of_not_mem_keys
        have hk0 := hN hd (List.mem_cons_self hd tl)
        simpa [settingByNames, he] using hk0

theorem componentEntry_cases (t : Value) (c : List (String × Value)) (upd : Option Value)
    (h : componentEntry t = some (c, upd)) :
    (c = [] ∧ upd = none ∧ isZboxComponent t = false) ∨
    ∃ kvs ikvs s, t = Value.obj kvs ∧ s ≠ "" ∧
      objGetD kvs "component" (Value.obj []) = Value.obj ikvs ∧
      objGetD ikvs "component_name" (Value.str "") = Value.str s ∧
      c = [("zpod_component_" ++ sanitize_component_name s, t)] ∧
      upd = (if s = "zbox" then some (objGetD kvs "ip" Value.null) else none) := by
  cases t with
  | obj kvs =>
    simp only [componentEntry] at h
    cases hcomp : objGetD kvs "component" (Value.obj []) with
    | obj ikvs =>
      simp only [hcomp] at h
      cases hn : objGetD ikvs "component_name" (Value.str "") with
      | str s =>
        rw [hn] at h
        by_cases hs : s = ""
        · simp [hs] at h
          exact Or.inl ⟨h.1, h.2.symm, by simp [isZboxComponent, hcomp, hn, hs]⟩
        · simp [hs] at h
          exact Or.inr ⟨kvs, ikvs, s, rfl, hs, hcomp, hn, h.1.symm, h.2.symm⟩
      | null =>
        rw [hn] at h; simp [truthy] at h
        exact Or.inl ⟨h.1, h.2.symm, by simp [isZboxComponent, hcomp, hn]⟩
      | bool bb =>
        rw [hn] at h
        cases bb <;> simp [truthy] at h
        exact Or.inl ⟨h.1, h.2.symm, by simp [isZboxComponent, hcomp, hn]⟩
      | int n =>
        rw [hn] at h
        by_cases hz : n = 0
        · subst hz; simp [truthy] at h
          exact Or.inl ⟨h.1, h.2.symm, by simp [isZboxComponent, hcomp, hn]⟩
        · simp [truthy, hz] at h
      | list xs =>
        rw [hn] at h
        cases xs <;> simp [truthy] at h
        exact Or.inl ⟨h.1, h.2.symm, by simp [isZboxComponent, hcomp, hn]⟩
      | obj okvs =>
        rw [hn] at h
        cases okvs <;> simp [truthy] at h
        exact Or.inl ⟨h.1, h.2.symm, by simp [isZboxComponent, hcomp, hn]⟩
    | null => simp only [hcomp] at h; simp at h
    | bool bb => simp only [hcomp] at h; simp at h
    | int n => simp only [hcomp] at h; simp at h
    | str s => simp only [hcomp] at h; simp at h
    | list xs => simp only [hcomp] at h; simp at h
  | null => simp [componentEntry] at h
  | bool bb => simp [componentEntry] at h
  | int n => simp [componentEntry] at h
  | str s => simp [componentEntry] at h
  | list xs => simp [componentEntry] at h

theorem componentsFold_cons_none (hd : Value) (tl : List Value) (z : Value)
    (he : componentEntry hd = none) : componentsFold (hd :: tl) z = none := by
  simp [componentsFold, he]

theorem componentsFold_cons_some (hd : Value) (tl : List Value) (z : Value)
    (c : List (String × Value)) (upd : Option Value)
    (he : componentEntry hd = some (c, upd)) :
    componentsFold (hd :: tl) z =
      match componentsFold tl (upd.getD z) with
      | some csz => some (c ++ csz.1, csz.2)
      | none => none := by
  simp only [componentsFold, he]
  cases ht : componentsFold tl (upd.getD z) <;> simp [ht]

theorem componentsFold_key_shape (l : List Value) (z : Value)
    (csz : List (String × Value) × Value)
    (h : componentsFold l z = some csz) (p : String × Value) (hp : p ∈ csz.1) :
    ∃ x, p.1 = "zpod_component_" ++ x := by
  induction l generalizing z csz with
  | nil =>
    simp [componentsFold] at h
    rw [← h] at hp
    simp at hp
  | cons hd tl ih =>
    cases he : componentEntry hd with
    | none => rw [componentsFold_cons_none hd tl z he] at h; simp at h
    | some cu =>
      obtain ⟨c, upd⟩ := cu
      rw [componentsFold_cons_some hd tl z c upd he] at h
      cases ht : componentsFold tl (upd.getD z) with
      | none => rw [ht] at h; simp at h
      | some csz' =>
        rw [ht] at h
        simp at h
        rw [← h] at hp
        simp at hp
        rcases hp with hp | hp
        · rcases componentEntry_cases hd c upd he with ⟨hc, _⟩ | ⟨kvs, ikvs, s, _, _, _, _, hc, _⟩
          · rw [hc] at hp; simp at hp
          · rw [hc] at hp
            simp at hp
            exact ⟨sanitize_component_name s, by rw [hp]⟩
        · exact ih (upd.getD z) csz' ht hp

theorem componentsFold_ctx_get_none (l : List Value) (z : Value)
    (csz : List (String × Value) × Value)
    (h : componentsFold l z = some csz) (key : String)
    (hK : ∀ t ∈ l, key ∉ componentCtxKeys t) : dictGet csz.1 key = none := by
  induction l generalizing z csz with
  | nil =>
    simp [componentsFold] at h
    rw [← h]
    rfl
  | cons hd tl ih =>
    cases he : componentEntry hd with
    | none => rw [componentsFold_cons_none hd tl z he] at h; simp at h
    | some cu =>
      obtain ⟨c, upd⟩ := cu
      rw [componentsFold_cons_some hd tl z c upd he] at h
      cases ht : componentsFold tl (upd.getD z) with
      | none => rw [ht] at h; simp at h
      | some csz' =>
        rw [ht] at h
        simp at h
        rw [← h]
        rw [dictGet_append]
        rw [ih (upd.getD z) csz' ht (fun t htl => hK t (List.mem_cons_of_mem hd htl))]
        apply dictGet_eq_none_of_not_mem_keys
        have hk0 := hK hd (List.mem_cons_self hd tl)
        simpa [componentCtxKeys, he] using hk0

theorem componentEntry_zbox_upd (hd : Value) (c : List (String × Value))
    (upd : Option Value) (he : componentEntry hd = some (c, upd)) :
    upd = (if isZboxComponent hd then some (componentIp hd) else none) := by
  rcases componentEntry_cases hd c upd he with ⟨_, hu, hz⟩ |
      ⟨kvs, ikvs, s, hkvs, _, hcomp, hn, _, hu⟩
  · rw [hz, hu]; rfl
  · subst hkvs
    have hzb : isZboxComponent (Value.obj kvs) = (s == "zbox") := by
      simp [isZboxComponent, hcomp, hn]
    rw [hu, hzb]
    by_cases hs : s = "zbox"
    · simp [hs, componentIp]
    · simp [hs]

theorem componentsFold_zbox (l : List Value) (z : Value)
    (csz : List (String × Value) × Value) (h : componentsFold l z = some csz) :
    csz.2 = match (l.filter isZboxComponent).getLast? with
            | none => z
            | some cpt => componentIp cpt := by
  induction l generalizing z csz with
  | nil =>
    simp [componentsFold] at h
    rw [← h]
    rfl
  | cons hd tl ih =>
    cases he : componentEntry hd with
    | none => rw [componentsFold_cons_none hd tl z he] at h; simp at h
    | some cu =>
      obtain ⟨c, upd⟩ := cu
      rw [componentsFold_cons_some hd tl z c upd he] at h
      cases ht : componentsFold tl (upd.getD z) with
      | none => rw [ht] at h; simp at h
      | some csz' =>
        rw [ht] at h
        simp at h
        have h2 : csz.2 = csz'.2 := by rw [← h]
        rw [h2, ih (upd.getD z) csz' ht]
        have hupd := componentEntry_zbox_upd hd c upd he
        by_cases hz : isZboxComponent hd = true
        · rw [List.filter_cons_of_pos hz]
          rw [hz] at hupd
          simp at hupd
          rw [hupd]
          cases hf : List.filter isZboxComponent tl with
          | nil => simp
          | cons f fs =>
            cases hl : (f :: fs).getLast? with
            | none => simp at hl
            | some cpt => rw [List.getLast?_cons_cons, hl]
        · have hz' : isZboxComponent hd = false := by
            cases hiz : isZboxComponent hd
            · rfl
            · exact absurd hiz hz
          rw [List.filter_cons_of_neg (by simp [hz'])]
          rw [hz'] at hupd
          simp at hupd
          rw [hupd]
          cases (List.filter isZboxComponent tl).getLast? <;> simp

theorem lastZboxIp_eq_match (comps : List Value) :
    lastZboxIp comps = match (comps.filter isZboxComponent).getLast? with
                       | none => Value.null
                       | some cpt => componentIp cpt := by
  unfold lastZboxIp
  cases hf : (comps.filter isZboxComponent).getLast? with
  | none => rfl
  | some cpt => cases cpt <;> rfl

theorem networkStep_eq_cases (v : Value) (ctx : List (String × Value))
    (h : networkStep v = some ctx) :
    ctx = [] ∨
    ∃ nkvs rest net, v = Value.list (Value.obj nkvs :: rest) ∧
      ip_network_of_value (objGetD nkvs "cidr" (Value.str "")) = some net ∧
      ((net.network_address + 1 < 2 ^ familyBits net ∧
        ctx = [("zpod_subnet", Value.str (rsplit_drop_last (netAddressString net))),
               ("zpod_gateway", Value.str (addressString net.v6 (net.network_address + 1))),
               ("zpod_netmask", Value.str (netmaskString net)),
               ("zpod_netprefix", Value.int net.prefixlen)]) ∨
       (¬net.network_address + 1 < 2 ^ familyBits net ∧
        ctx = [("zpod_subnet", Value.str (rsplit_drop_last (netAddressString net)))])) := by
  unfold networkStep at h
  cases v with
  | null => simp [truthy] at h; exact Or.inl h
  | bool bb =>
    cases bb <;> simp [truthy] at h
    exact Or.inl h
  | int n =>
    by_cases hz : n = 0
    · subst hz; simp [truthy] at h; exact Or.inl h
    · simp [truthy, hz] at h
  | str s =>
    by_cases hs : s = ""
    · subst hs; simp [truthy] at h; exact Or.inl h
    · simp [truthy, hs] at h
  | obj kvs =>
    cases kvs with
    | nil => simp [truthy] at h; exact Or.inl h
    | cons p ps => simp [truthy] at h
  | list xs =>
    cases xs with
    | nil => simp [truthy] at h; exact Or.inl h
    | cons hd rest =>
      cases hd with
      | obj nkvs =>
        simp only [truthy, List.isEmpty_cons, Bool.not_false, if_true] at h
        cases hparse : ip_network_of_value (objGetD nkvs "cidr" (Value.str "")) with
        | none =>
          simp only [hparse] at h
          simp at h
          exact Or.inl h
        | some net =>
          simp only [hparse] at h
          by_cases hov : net.network_address + 1 < 2 ^ familyBits net
          · rw [if_pos hov] at h
            simp at h
            exact Or.inr ⟨nkvs, rest, net, rfl, hparse, Or.inl ⟨hov, h.symm⟩⟩
          · rw [if_neg hov] at h
            simp at h
            exact Or.inr ⟨nkvs, rest, net, rfl, hparse, Or.inr ⟨hov, h.symm⟩⟩
      | null => simp [truthy] at h
      | bool bb => simp [truthy] at h
      | int n => simp [truthy] at h
      | str s => simp [truthy] at h
      | list ys => simp [truthy] at h

theorem networkStep_key_mem (v : Value) (ctx : List (String × Value))
    (h : networkStep v = some ctx) (p : String × Value) (hp : p ∈ ctx) :
    p.1 ∈ networkDerivedKeys := by
  rcases networkStep_eq_cases v ctx h with hc | ⟨nkvs, rest, net, _, _, ⟨_, hc⟩ | ⟨_, hc⟩⟩
  · rw [hc] at hp; simp at hp
  · rw [hc] at hp
    simp at hp
    rcases hp with hp | hp | hp | hp <;> simp [hp, networkDerivedKeys]
  · rw [hc] at hp
    simp at hp
    simp [hp, networkDerivedKeys]

theorem settingEntry_isSome_of_wt (t : Value) (h : wtSetting t = true) :
    (settingEntry t).isSome = true := by
  cases t with
  | obj kvs =>
    cases hn : objGetD kvs "name" (Value.str "") with
    | str s => by_cases hs : s = "" <;> simp [settingEntry, hn, hs]
    | null => simp [settingEntry, hn, truthy]
    | bool bb =>
      simp [wtSetting, hn, truthy] at h
      simp [settingEntry, hn, truthy, h]
    | int n =>
      simp [wtSetting, hn, truthy] at h
      simp [settingEntry, hn, truthy, h]
    | list xs =>
      simp [wtSetting, hn, truthy] at h
      simp [settingEntry, hn, truthy, h]
    | obj okvs =>
      simp [wtSetting, hn, truthy] at h
      simp [settingEntry, hn, truthy, h]
  | null => simp [wtSetting] at h
  | bool bb => simp [wtSetting] at h
  | int n => simp [wtSetting] at h
  | str s => simp [wtSetting] at h
  | list xs => simp [wtSetting] at h

theorem settingsStep_isSome_of_wt (l : List Value) (h : l.all wtSetting = true) :
    (settingsStep l).isSome = true := by
  induction l with
  | nil => simp [settingsStep]
  | cons hd tl ih =>
    simp only [List.all_cons, Bool.and_eq_true] at h
    have he := settingEntry_isSome_of_wt hd h.1
    have ht := ih h.2
    rw [settingsStep_cons]
    cases he' : settingEntry hd with
    | none => rw [he'] at he; simp at he
    | some cb =>
      cases ht' : settingsStep tl with
      | none => rw [ht'] at ht; simp at ht
      | some sb => simp

theorem componentEntry_isSome_of_wt (t : Value) (h : wtComponent t = true) :
    (componentEntry t).isSome = true := by
  cases t with
  | obj kvs =>
    cases hcomp : objGetD kvs "component" (Value.obj []) with
    | obj ikvs =>
      cases hn : objGetD ikvs "component_name" (Value.str "") with
      | str s => by_cases hs : s = "" <;> simp [componentEntry, hcomp, hn, hs]
      | null => simp [componentEntry, hcomp, hn, truthy]
      | bool bb =>
        simp [wtComponent, hcomp, hn, truthy] at h
        simp [componentEntry, hcomp, hn, truthy, h]
      | int n =>
        simp [wtComponent, hcomp, hn, truthy] at h
        simp [componentEntry, hcomp, hn, truthy, h]
      | list xs =>
        simp [wtComponent, hcomp, hn, truthy] at h
        simp [componentEntry, hcomp, hn, truthy, h]
      | obj okvs =>
        simp [wtComponent, hcomp, hn, truthy] at h
        simp [componentEntry, hcomp, hn, truthy, h]
    | null => simp [wtComponent, hcomp] at h
    | bool bb => simp [wtComponent, hcomp] at h
    | int n => simp [wtComponent, hcomp] at h
    | str s => simp [wtComponent, hcomp] at h
    | list xs => simp [wtComponent, hcomp] at h
  | null => simp [wtComponent] at h
  | bool bb => simp [wtComponent] at h
  | int n => simp [wtComponent] at h
  | str s => simp [wtComponent] at h
  | list xs => simp [wtComponent] at h

theorem componentsFold_isSome_of_wt (l : List Value) (z : Value)
    (h : l.all wtComponent = true) : (componentsFold l z).isSome = true := by
  induction l generalizing z with
  | nil => simp [componentsFold]
  | cons hd tl ih =>
    simp only [List.all_cons, Bool.and_eq_true] at h
    have he := componentEntry_isSome_of_wt hd h.1
    cases he' : componentEntry hd with
    | none => rw [he'] at he; simp at he
    | some cu =>
      obtain ⟨c, upd⟩ := cu
      rw [componentsFold_cons_some hd tl z c upd he']
      have ht := ih (upd.getD z) h.2
      cases ht' : componentsFold tl (upd.getD z) with
      | none => rw [ht'] at ht; simp at ht
      | some csz => simp

theorem componentsStep_isSome_of_wt (v : Value) (h : wtComponentsVal v = true) :
    (componentsStep v).isSome = true := by
  cases v with
  | list xs =>
    simp only [wtComponentsVal] at h
    simp only [componentsStep]
    exact componentsFold_isSome_of_wt xs Value.null h
  | obj kvs => cases kvs <;> simp_all [wtComponentsVal, componentsStep]
  | str s =>
    by_cases hs : s = "" <;> simp_all [wtComponentsVal, componentsStep]
  | null => simp [wtComponentsVal] at h
  | bool bb => simp [wtComponentsVal] at h
  | int n => simp [wtComponentsVal] at h

theorem networkStep_isSome_of_wt (v : Value) (h : wtNetworksVal v = true) :
    (networkStep v).isSome = true := by
  cases v with
  | list xs =>
    cases xs with
    | nil => simp [networkStep, truthy]
    | cons hd rest =>
      cases hd with
      | obj nkvs =>
        cases hparse : ip_network_of_value (objGetD nkvs "cidr" (Value.str "")) with
        | none => simp [networkStep, truthy, hparse]
        | some net =>
          by_cases hov : net.network_address + 1 < 2 ^ familyBits net <;>
            simp [networkStep, truthy, hparse, hov]
      | null => simp [wtNetworksVal, truthy] at h
      | bool bb => simp [wtNetworksVal, truthy] at h
      | int n => simp [wtNetworksVal, truthy] at h
      | str s => simp [wtNetworksVal, truthy] at h
      | list ys => simp [wtNetworksVal, truthy] at h
  | null => simp [networkStep, truthy]
  | bool bb =>
    cases bb
    · simp [networkStep, truthy]
    · simp [wtNetworksVal, truthy] at h
  | int n =>
    by_cases hz : n = 0
    · subst hz; simp [networkStep, truthy]
    · simp [wtNetworksVal, truthy, hz] at h
  | str s =>
    by_cases hs : s = ""
    · subst hs; simp [networkStep, truthy]
    · simp [wtNetworksVal, truthy, hs] at h
  | obj kvs =>
    cases kvs with
    | nil => simp [networkStep, truthy]
    | cons p ps => simp [wtNetworksVal, truthy] at h

theorem build_eq (zkvs : List (String × Value)) (dns settings : List Value)
    (extra : Option (List (String × Value)))
    (sb : List (String × Value) × List (String × Value))
    (netCtx : List (String × Value)) (cz : List (String × Value) × Value)
    (nameV : Value)
    (hs : settingsStep settings = some sb)
    (hn : networkStep (objGetD zkvs "networks" (Value.list [])) = some netCtx)
    (hc : componentsStep (objGetD zkvs "components" (Value.list [])) = some cz)
    (hname : dictGet zkvs "name" = some nameV) :
    build_template_context (Value.obj zkvs) dns settings extra =
      some (rootContext zkvs dns settings ++ sb.1 ++ netCtx ++ cz.1 ++
        infraContext nameV cz.2 sb.2 ++ extra.getD []) := by
  simp [build_template_context, hs, hn, hc, hname]

theorem build_inv (zpod : Value) (dns settings : List Value)
    (extra : Option (List (String × Value))) (ctx : List (String × Value))
    (hb : build_template_context zpod dns settings extra = some ctx) :
    ∃ zkvs sb netCtx cz nameV, zpod = Value.obj zkvs ∧
      settingsStep settings = some sb ∧
      networkStep (objGetD zkvs "networks" (Value.list [])) = some netCtx ∧
      componentsStep (objGetD zkvs "components" (Value.list [])) = some cz ∧
      dictGet zkvs "name" = some nameV ∧
      ctx = rootContext zkvs dns settings ++ sb.1 ++ netCtx ++ cz.1 ++
        infraContext nameV cz.2 sb.2 ++ extra.getD [] := by
  cases zpod with
  | obj zkvs =>
    cases hs : settingsStep settings with
    | none => simp [build_template_context, hs] at hb
    | some sb =>
      cases hn : networkStep (objGetD zkvs "networks" (Value.list [])) with
      | none => simp [build_template_context, hs, hn] at hb
      | some netCtx =>
        cases hc : componentsStep (objGetD zkvs "components" (Value.list [])) with
        | none => simp [build_template_context, hs, hn, hc] at hb
        | some cz =>
          cases hname : dictGet zkvs "name" with
          | none => simp [build_template_context, hs, hn, hc, hname] at hb
          | some nameV =>
            rw [build_eq zkvs dns settings extra sb netCtx cz nameV hs hn hc hname] at hb
            simp at hb
            refine ⟨zkvs, sb, netCtx, cz, nameV, rfl, rfl, hn, hc, hname, ?_⟩
            simp only [List.append_assoc]
            exact hb.symm
  | null => simp [build_template_context] at hb
  | bool bb => simp [build_template_context] at hb
  | int n => simp [build_template_context] at hb
  | str s => simp [build_template_context] at hb
  | list xs => simp [build_template_context] at hb

theorem stripUnderscores_sublist (l : List Char) :
    (stripUnderscores l).Sublist l := by
  unfold stripUnderscores
  exact List.Sublist.trans
    (List.IsPrefix.sublist ( List.rdropWhile_prefix _ _))
    (List.IsSuffix.sublist (List.dropWhile_suffix _))

theorem mem_of_mem_stripUnderscores (c : Char) (l : List Char)
    (h : c ∈ stripUnderscores l) : c ∈ l :=
  List.Sublist.mem h (stripUnderscores_sublist l)

theorem stripUnderscores_head_not (l : List Char) (h : stripUnderscores l ≠ []) :
    isUnderscore ((stripUnderscores l).head h) = false := by
  unfold stripUnderscores at *
  obtain ⟨t, ht⟩ := List.rdropWhile_prefix isUnderscore (List.dropWhile isUnderscore l)
  have hA : List.dropWhile isUnderscore l ≠ [] := by
    intro hnil
    apply h
    rw [List.rdropWhile, hnil]
    rfl
  have hq : (List.dropWhile isUnderscore l).head? =
      some ((List.rdropWhile isUnderscore (List.dropWhile isUnderscore l)).head h) := by
    conv_lhs => rw [← ht]
    rw [List.head?_append, List.head?_eq_head h]
    rfl
  rw [List.head?_eq_head hA] at hq
  have hinj := Option.some.inj hq
  rw [← hinj]
  exact List.head_dropWhile_not isUnderscore l hA

theorem stripUnderscores_getLast_not (l : List Char) (h : stripUnderscores l ≠ []) :
    isUnderscore ((stripUnderscores l).getLast h) = false := by
  unfold stripUnderscores at *
  have := List.rdropWhile_last_not isUnderscore (List.dropWhile isUnderscore l) h
  simpa using this

theorem stripUnderscores_eq_self (l : List Char)
    (hh : ∀ h : l ≠ [], isUnderscore (l.head h) = false)
    (hl : ∀ h : l ≠ [], isUnderscore (l.getLast h) = false) :
    stripUnderscores l = l := by
  unfold stripUnderscores
  have h1 : List.dropWhile isUnderscore l = l := by
    rw [List.dropWhile_eq_self_iff]
    intro hlen
    have hne : l ≠ [] := List.length_pos.mp hlen
    have := hh hne
    rw [List.head_eq_getElem] at this
    simp only [List.get_eq_getElem]
    simp [this]
  rw [h1]
  rw [List.rdropWhile_eq_self_iff]
  intro hne
  simp [hl hne]

theorem subOutput_of_mem_sanitized (s : String) (c : Char)
    (hc : c ∈ (sanitize_component_name s).data) : isSubOutput c = true := by
  unfold sanitize_component_name at hc
  simp only [String.mk] at hc
  rw [List.mem_map] at hc
  obtain ⟨d, hd, hdc⟩ := hc
  have hdm := mem_of_mem_stripUnderscores d _ hd
  rw [List.mem_map] at hdm
  obtain ⟨e, _, hed⟩ := hdm
  rw [← hdc, ← hed]
  exact toLower_isSubOutput (subChar e) (subChar_isSubOutput e)

theorem head_of_map_toLower (u : List Char) (h : List.map Char.toLower u ≠ [])
    (hu : u ≠ []) :
    (List.map Char.toLower u).head h = Char.toLower (u.head hu) := by
  have h1 := List.head?_eq_head h
  rw [List.head?_map, List.head?_eq_head hu] at h1
  exact (Option.some.inj h1).symm

theorem getLast_of_map_toLower (u : List Char) (h : List.map Char.toLower u ≠ [])
    (hu : u ≠ []) :
    (List.map Char.toLower u).getLast h = Char.toLower (u.getLast hu) := by
  have h1 := List.getLast?_eq_getLast (List.map Char.toLower u) h
  rw [List.getLast?_map, List.getLast?_eq_getLast u hu] at h1
  exact Option.some.inj h1.symm

/-- C7: the sanitizer is idempotent. -/
theorem sanitize_component_name_idempotent (x : String) :
    sanitize_component_name (sanitize_component_name x) = sanitize_component_name x := by
  have hmap : List.map subChar (sanitize_component_name x).data =
      (sanitize_component_name x).data := by
    have : ∀ c ∈ (sanitize_component_name x).data, subChar c = c := fun c hc =>
      subChar_fix_of_isSubOutput c (subOutput_of_mem_sanitized x c hc)
    calc List.map subChar (sanitize_component_name x).data
        = List.map id (sanitize_component_name x).data := List.map_congr_left this
      _ = (sanitize_component_name x).data := List.map_id _
  have hstrip : stripUnderscores (sanitize_component_name x).data =
      (sanitize_component_name x).data := by
    apply stripUnderscores_eq_self
    · intro h
      unfold sanitize_component_name at *
      simp only [String.mk] at *
      have hu : stripUnderscores (List.map subChar x.data) ≠ [] := by
        intro hnil
        rw [hnil] at h
        simp at h
      rw [head_of_map_toLower _ h hu]
      have hhead := stripUnderscores_head_not (List.map subChar x.data) hu
      simp only [isUnderscore, beq_eq_false_iff_ne] at hhead ⊢
      intro hcon
      exact hhead ((toLower_eq_underscore_iff _).mp hcon)
    · intro h
      unfold sanitize_component_name at *
      simp only [String.mk] at *
      have hu : stripUnderscores (List.map subChar x.data) ≠ [] := by
        intro hnil
        rw [hnil] at h
        simp at h
      rw [getLast_of_map_toLower _ h hu]
      have hlast := stripUnderscores_getLast_not (List.map subChar x.data) hu
      simp only [isUnderscore, beq_eq_false_iff_ne] at hlast ⊢
      intro hcon
      exact hlast ((toLower_eq_underscore_iff _).mp hcon)
  have hlower : List.map Char.toLower (sanitize_component_name x).data =
      (sanitize_component_name x).data := by
    unfold sanitize_component_name
    simp only [String.mk]
    rw [List.map_map]
    apply List.map_congr_left
    intro a _
    exact toLower_toLower a
  show String.mk (List.map Char.toLower (stripUnderscores
      (List.map subChar (sanitize_component_name x).data))) = sanitize_component_name x
  rw [hmap, hstrip, hlower]

theorem dropLeadingUnderscores_eq_dropWhile (l : List Char) :
    dropLeadingUnderscores l = List.dropWhile isUnderscore l := by
  induction l with
  | nil => rfl
  | cons c cs ih =>
    simp only [dropLeadingUnderscores, List.dropWhile_cons, isUnderscore]
    by_cases hc : c = '_'
    · simp [hc, ih]
    · simp [hc, ih]

/-- C8: the sanitizer equals the specification's pipeline — replace every
character outside `[A-Za-z0-9]` with an underscore, strip leading and
trailing underscores, lowercase — and maps the specification's examples
`"My Component!!"` to `"my_component"` and `"---"` to `""`. -/
theorem sanitize_component_name_matches_spec :
    (∀ x : String, sanitize_component_name x = sanitizeSpec x) ∧
    sanitize_component_name "My Component!!" = "my_component" ∧
    sanitize_component_name "---" = "" := by
  refine ⟨fun x => ?_, by decide, by decide⟩
  unfold sanitize_component_name sanitizeSpec
  congr 1
  congr 1
  unfold stripUnderscores List.rdropWhile
  rw [dropLeadingUnderscores_eq_dropWhile, dropLeadingUnderscores_eq_dropWhile]
  rfl

theorem dictGet_append_right (xs ys : List (String × Value)) (key : String)
    (v : Value) (h : dictGet ys key = some v) :
    dictGet (xs ++ ys) key = some v := by
  rw [dictGet_append, h]

theorem dictGet_append_left (xs ys : List (String × Value)) (key : String)
    (h : dictGet ys key = none) :
    dictGet (xs ++ ys) key = dictGet xs key := by
  rw [dictGet_append, h]

/-- C4: in the namespace built with no extra variables, `zpod_dns` and
`zpod_nfs` both equal the `ip` of the last component whose nested
`component_name` is exactly `"zbox"` (null when there is no such component
or it lacks an `ip`). -/
theorem zpod_dns_nfs_track_last_zbox
    (zkvs : List (String × Value)) (comps dns settings : List Value)
    (sb : List (String × Value) × List (String × Value))
    (netCtx : List (String × Value)) (cz : List (String × Value) × Value)
    (nameV : Value)
    (hcomps : objGetD zkvs "components" (Value.list []) = Value.list comps)
    (hs : settingsStep settings = some sb)
    (hn : networkStep (objGetD zkvs "networks" (Value.list [])) = some netCtx)
    (hc : componentsStep (objGetD zkvs "components" (Value.list [])) = some cz)
    (hname : dictGet zkvs "name" = some nameV) :
    ctxGet (Value.obj zkvs) dns settings none "zpod_dns" = some (lastZboxIp comps) ∧
    ctxGet (Value.obj zkvs) dns settings none "zpod_nfs" = some (lastZboxIp comps) := by
  have hz : cz.2 = lastZboxIp comps := by
    rw [hcomps] at hc
    simp only [componentsStep] at hc
    rw [componentsFold_zbox comps Value.null cz hc, lastZboxIp_eq_match]
  unfold ctxGet
  rw [build_eq zkvs dns settings none sb netCtx cz nameV hs hn hc hname]
  simp only [Option.some_bind]
  constructor
  · rw [dictGet_append_left _ _ _ (by rfl)]
    apply dictGet_append_right
    rw [← hz]
    simp [infraContext, dictGet]
  · rw [dictGet_append_left _ _ _ (by rfl)]
    apply dictGet_append_right
    rw [← hz]
    simp [infraContext, dictGet]

/-- C4 witness: the specification's example zbox component yields
`"10.1.2.10"` for both keys. -/
theorem zpod_dns_nfs_track_last_zbox_witness :
    ctxGet zpodZbox [] [] none "zpod_dns" = some (Value.str "10.1.2.10") ∧
    ctxGet zpodZbox [] [] none "zpod_nfs" = some (Value.str "10.1.2.10") := by
  have h := zpod_dns_nfs_track_last_zbox
    [("name", Value.str "demo"), ("components", Value.list [zboxExampleComponent])]
    [zboxExampleComponent] [] [] ([], []) []
    ([("zpod_component_zbox", zboxExampleComponent)], Value.str "10.1.2.10")
    (Value.str "demo") rfl rfl rfl rfl rfl
  exact ⟨h.1, h.2⟩

/-- C5: every extra-variables entry lands in the final namespace verbatim,
overriding any computed value for the same key. -/
theorem extra_vars_override (zpod : Value) (dns settings : List Value)
    (evs : List (String × Value)) (ctx : List (String × Value))
    (hb : build_template_context zpod dns settings (some evs) = some ctx)
    (key : String) (v : Value) (hv : dictGet evs key = some v) :
    dictGet ctx key = some v := by
  obtain ⟨zkvs, sb, netCtx, cz, nameV, hz, hs, hn, hc, hname, hctx⟩ :=
    build_inv zpod dns settings (some evs) ctx hb
  rw [hctx]
  exact dictGet_append_right _ _ _ _ hv

/-- C5 witness: an extra-variables override of `zpod_dns` wins over the
computed zbox ip. -/
theorem extra_vars_override_witness :
    dictGet ((build_template_context zpodZbox [] []
        (some [("zpod_dns", Value.str "override")])).getD []) "zpod_dns" =
      some (Value.str "override") :=
  extra_vars_override zpodZbox [] [] [("zpod_dns", Value.str "override")]
    ((build_template_context zpodZbox [] []
        (some [("zpod_dns", Value.str "override")])).getD [])
    rfl "zpod_dns" (Value.str "override") rfl

theorem componentsStep_key_shape (v : Value) (cz : List (String × Value) × Value)
    (h : componentsStep v = some cz) (p : String × Value) (hp : p ∈ cz.1) :
    ∃ x, p.1 = "zpod_component_" ++ x := by
  cases v with
  | list xs => exact componentsFold_key_shape xs Value.null cz h p hp
  | obj kvs =>
    cases kvs with
    | nil =>
      simp [componentsStep] at h
      rw [← h] at hp
      simp at hp
    | cons a b => simp [componentsStep] at h
  | str s =>
    by_cases hs : s = ""
    · subst hs
      simp [componentsStep] at h
      rw [← h] at hp
      simp at hp
    · simp [componentsStep, hs] at h
  | null => simp [componentsStep] at h
  | bool bb => simp [componentsStep] at h
  | int n => simp [componentsStep] at h

theorem prefixed_of_mem_fixed_keys (key : String)
    (h : key ∈ rootPassthroughKeys ∨ key ∈ infraKeys ∨ key ∈ networkDerivedKeys) :
    ∃ r, key = "zpod_" ++ r := by
  rcases h with h | h | h
  · simp [rootPassthroughKeys] at h
    rcases h with rfl | rfl | rfl | rfl | rfl | rfl | rfl | rfl | rfl | rfl | rfl |
      rfl | rfl | rfl | rfl | rfl
    · exact ⟨"id", rfl⟩
    · exact ⟨"name", rfl⟩
    · exact ⟨"description", rfl⟩
    · exact ⟨"domain", rfl⟩
    · exact ⟨"password", rfl⟩
    · exact ⟨"profile", rfl⟩
    · exact ⟨"status", rfl⟩
    · exact ⟨"creation_date", rfl⟩
    · exact ⟨"last_modified_date", rfl⟩
    · exact ⟨"components", rfl⟩
    · exact ⟨"networks", rfl⟩
    · exact ⟨"dns_records", rfl⟩
    · exact ⟨"endpoint", rfl⟩
    · exact ⟨"features", rfl⟩
    · exact ⟨"permissions", rfl⟩
    · exact ⟨"settings", rfl⟩
  · simp [infraKeys] at h
    rcases h with rfl | rfl | rfl | rfl | rfl
    · exact ⟨"portgroup", rfl⟩
    · exact ⟨"dns", rfl⟩
    · exact ⟨"nfs", rfl⟩
    · exact ⟨"ntp", rfl⟩
    · exact ⟨"sshkey", rfl⟩
  · simp [networkDerivedKeys] at h
    rcases h with rfl | rfl | rfl | rfl
    · exact ⟨"subnet", rfl⟩
    · exact ⟨"gateway", rfl⟩
    · exact ⟨"netmask", rfl⟩
    · exact ⟨"netprefix", rfl⟩

/-- C10: with no extra variables supplied, every key of the built namespace
starts with the prefix `zpod_`. -/
theorem namespace_keys_all_prefixed (zpod : Value) (dns settings : List Value)
    (ctx : List (String × Value))
    (hb : build_template_context zpod dns settings none = some ctx)
    (key : String) (hkey : hasKey ctx key = true) :
    ∃ r, key = "zpod_" ++ r := by
  obtain ⟨zkvs, sb, netCtx, cz, nameV, hz, hs, hn, hc, hname, hctx⟩ :=
    build_inv zpod dns settings none ctx hb
  rw [hctx] at hkey
  rcases hasKey_append _ _ _ hkey with hkey | hkey
  rcases hasKey_append _ _ _ hkey with hkey | hkey
  rcases hasKey_append _ _ _ hkey with hkey | hkey
  rcases hasKey_append _ _ _ hkey with hkey | hkey
  rcases hasKey_append _ _ _ hkey with hkey | hkey
  · have hmem := mem_keys_of_dictGet_isSome _ _ hkey
    apply prefixed_of_mem_fixed_keys
    exact Or.inl hmem
  · have hmem := mem_keys_of_dictGet_isSome _ _ hkey
    rw [List.mem_map] at hmem
    obtain ⟨p, hp, hpk⟩ := hmem
    obtain ⟨x, hx⟩ := settingsStep_key_shape settings sb hs p hp
    refine ⟨"setting_" ++ x, ?_⟩
    rw [← hpk, hx, ← String.append_assoc]
    rfl
  · have hmem := mem_keys_of_dictGet_isSome _ _ hkey
    rw [List.mem_map] at hmem
    obtain ⟨p, hp, hpk⟩ := hmem
    apply prefixed_of_mem_fixed_keys
    rw [← hpk]
    exact Or.inr (Or.inr (networkStep_key_mem _ _ hn p hp))
  · have hmem := mem_keys_of_dictGet_isSome _ _ hkey
    rw [List.mem_map] at hmem
    obtain ⟨p, hp, hpk⟩ := hmem
    obtain ⟨x, hx⟩ := componentsStep_key_shape _ cz hc p hp
    refine ⟨"component_" ++ x, ?_⟩
    rw [← hpk, hx, ← String.append_assoc]
    rfl
  · have hmem := mem_keys_of_dictGet_isSome _ _ hkey
    apply prefixed_of_mem_fixed_keys
    exact Or.inr (Or.inl hmem)
  · simp [hasKey, dictGet] at hkey

/-- C10 witness: a concrete key of a concretely built namespace carries the
prefix. -/
theorem namespace_keys_all_prefixed_witness :
    ∃ r, "zpod_ntp" = "zpod_" ++ r :=
  namespace_keys_all_prefixed zpodNameOnly [] []
    ((build_template_context zpodNameOnly [] [] none).getD []) rfl "zpod_ntp" rfl

theorem dictGet_none_of_setting_keys (settings : List Value)
    (sb : List (String × Value) × List (String × Value))
    (hs : settingsStep settings = some sb) (key : String)
    (hkey : ∀ x, "zpod_setting_" ++ x ≠ key) : dictGet sb.1 key = none := by
  apply dictGet_eq_none_of_not_mem_keys
  intro hmem
  rw [List.mem_map] at hmem
  obtain ⟨p, hp, hpk⟩ := hmem
  obtain ⟨x, hx⟩ := settingsStep_key_shape settings sb hs p hp
  exact hkey x (by rw [← hx, hpk])

theorem dictGet_none_of_component_keys (v : Value)
    (cz : List (String × Value) × Value)
    (hc : componentsStep v = some cz) (key : String)
    (hkey : ∀ x, "zpod_component_" ++ x ≠ key) : dictGet cz.1 key = none := by
  apply dictGet_eq_none_of_not_mem_keys
  intro hmem
  rw [List.mem_map] at hmem
  obtain ⟨p, hp, hpk⟩ := hmem
  obtain ⟨x, hx⟩ := componentsStep_key_shape v cz hc p hp
  exact hkey x (by rw [← hx, hpk])

theorem dictGet_none_of_network_keys (v : Value) (netCtx : List (String × Value))
    (hn : networkStep v = some netCtx) (key : String)
    (hkey : key ∉ networkDerivedKeys) : dictGet netCtx key = none := by
  apply dictGet_eq_none_of_not_mem_keys
  intro hmem
  rw [List.mem_map] at hmem
  obtain ⟨p, hp, hpk⟩ := hmem
  exact hkey (by rw [← hpk]; exact networkStep_key_mem v netCtx hn p hp)

/-- C1 counterexample: a zPod record with every optional root field absent —
including `name` — does not complete: `zpod["name"]` in the
`zpod_portgroup` f-string (line 199) raises `KeyError`, modelled as `none`. -/
theorem build_raises_on_missing_name :
    build_template_context (Value.obj []) [] [] none = none := rfl

/-- C1 amended: when the zPod dict does carry a `name` key (of any value)
and the collections are well-typed, the build completes for every optional
root field combination and any extra variables, and each absent optional
root field's namespace key holds null; the CIDR content never matters. -/
theorem build_total_when_name_present
    (zkvs : List (String × Value)) (dns settings : List Value)
    (extra : Option (List (String × Value))) (nameV : Value)
    (hname : dictGet zkvs "name" = some nameV)
    (hsett : settings.all wtSetting = true)
    (hcomp : wtComponentsVal (objGetD zkvs "components" (Value.list [])) = true)
    (hnet : wtNetworksVal (objGetD zkvs "networks" (Value.list [])) = true) :
    (build_template_context (Value.obj zkvs) dns settings extra).isSome = true ∧
    (∀ f ∈ optionalRootFields, dictGet zkvs f = none →
      ctxGet (Value.obj zkvs) dns settings none ("zpod_" ++ f) = some Value.null) := by
  have hs' := settingsStep_isSome_of_wt settings hsett
  have hn' := networkStep_isSome_of_wt _ hnet
  have hc' := componentsStep_isSome_of_wt _ hcomp
  cases hs : settingsStep settings with
  | none => rw [hs] at hs'; simp at hs'
  | some sb =>
  cases hn : networkStep (objGetD zkvs "networks" (Value.list [])) with
  | none => rw [hn] at hn'; simp at hn'
  | some netCtx =>
  cases hc : componentsStep (objGetD zkvs "components" (Value.list [])) with
  | none => rw [hc] at hc'; simp at hc'
  | some cz =>
  constructor
  · rw [build_eq zkvs dns settings extra sb netCtx cz nameV hs hn hc hname]
    rfl
  · intro f hf hnone
    unfold ctxGet
    rw [build_eq zkvs dns settings none sb netCtx cz nameV hs hn hc hname]
    simp only [Option.some_bind]
    rw [dictGet_append_left _ _ _ (by rfl)]
    simp only [optionalRootFields, List.mem_cons, List.not_mem_nil, or_false] at hf
    rcases hf with rfl | rfl | rfl | rfl | rfl | rfl | rfl | rfl | rfl | rfl | rfl <;>
    · rw [dictGet_append_left _ _ _ (by simp [infraContext, dictGet])]
      rw [dictGet_append_left _ _ _ (dictGet_none_of_component_keys _ cz hc _
        (fun x => string_append_ne_of_not_isPrefixOf _ _ (by decide) x))]
      rw [dictGet_append_left _ _ _ (dictGet_none_of_network_keys _ netCtx hn _
        (by decide))]
      rw [dictGet_append_left _ _ _ (dictGet_none_of_setting_keys settings sb hs _
        (fun x => string_append_ne_of_not_isPrefixOf _ _ (by decide) x))]
      simp [rootContext, dictGet, objGetD, hnone]

/-- C1 witness: a zPod whose only key is `name` builds successfully and its
absent `description` maps to null. -/
theorem build_total_when_name_present_witness :
    (build_template_context zpodNameOnly [] [] none).isSome = true ∧
    ctxGet zpodNameOnly [] [] none ("zpod_" ++ "description") = some Value.null := by
  have h := build_total_when_name_present [("name", Value.str "mypod")] [] [] none
    (Value.str "mypod") rfl rfl rfl rfl
  exact ⟨h.1, h.2 "description" (by simp [optionalRootFields]) rfl⟩

/-- C3: a malformed or missing CIDR in the first network is skipped
silently — the build completes, the namespace is exactly the one with no
network contribution, and none of the four derived keys is present. -/
theorem cidr_parse_failure_soft_skip
    (zkvs nkvs : List (String × Value)) (rest : List Value)
    (dns settings : List Value)
    (sb : List (String × Value) × List (String × Value))
    (cz : List (String × Value) × Value) (nameV : Value)
    (hnets : objGetD zkvs "networks" (Value.list []) = Value.list (Value.obj nkvs :: rest))
    (hparse : ip_network_of_value (objGetD nkvs "cidr" (Value.str "")) = none)
    (hs : settingsStep settings = some sb)
    (hc : componentsStep (objGetD zkvs "components" (Value.list [])) = some cz)
    (hname : dictGet zkvs "name" = some nameV) :
    build_template_context (Value.obj zkvs) dns settings none =
      some (rootContext zkvs dns settings ++ sb.1 ++ cz.1 ++
        infraContext nameV cz.2 sb.2) ∧
    (∀ k ∈ networkDerivedKeys,
      ctxGet (Value.obj zkvs) dns settings none k = none) := by
  have hn : networkStep (objGetD zkvs "networks" (Value.list [])) = some [] := by
    rw [hnets]
    simp [networkStep, truthy, hparse]
  have hb := build_eq zkvs dns settings none sb [] cz nameV hs hn hc hname
  constructor
  · rw [hb]
    simp
  · intro k hk
    unfold ctxGet
    rw [hb]
    simp only [Option.some_bind]
    rw [dictGet_append_left _ _ _ (by rfl)]
    simp only [networkDerivedKeys, List.mem_cons, List.not_mem_nil, or_false] at hk
    rcases hk with rfl | rfl | rfl | rfl <;>
    · rw [dictGet_append_left _ _ _ (by simp [infraContext, dictGet])]
      rw [dictGet_append_left _ _ _ (dictGet_none_of_component_keys _ cz hc _
        (fun x => string_append_ne_of_not_isPrefixOf _ _ (by decide) x))]
      rw [dictGet_append_left _ _ _ (by rfl)]
      rw [dictGet_append_left _ _ _ (dictGet_none_of_setting_keys settings sb hs _
        (fun x => string_append_ne_of_not_isPrefixOf _ _ (by decide) x))]
      simp [rootContext, dictGet]

/-- C3 witness: the specification's `"not-a-cidr"` example builds a
namespace without any of the four derived keys. -/
theorem cidr_parse_failure_soft_skip_witness :
    (build_template_context zpodBadCidr [] [] none).isSome = true ∧
    ctxGet zpodBadCidr [] [] none "zpod_subnet" = none ∧
    ctxGet zpodBadCidr [] [] none "zpod_netprefix" = none := by
  have h := cidr_parse_failure_soft_skip
    [("name", Value.str "demo"),
     ("networks", Value.list [Value.obj [("cidr", Value.str "not-a-cidr")]])]
    [("cidr", Value.str "not-a-cidr")] [] [] [] ([], []) ([], Value.null)
    (Value.str "demo") rfl rfl rfl rfl rfl
  refine ⟨?_, ?_, ?_⟩
  · rw [show build_template_context zpodBadCidr [] [] none =
      build_template_context (Value.obj [("name", Value.str "demo"),
        ("networks", Value.list [Value.obj [("cidr", Value.str "not-a-cidr")]])])
        [] [] none from rfl, h.1]
    rfl
  · exact h.2 "zpod_subnet" (by simp [networkDerivedKeys])
  · exact h.2 "zpod_netprefix" (by simp [networkDerivedKeys])

theorem parse_octet_le (l : List Char) (n : Nat) (h : parse_octet l = some n) :
    n ≤ 255 := by
  unfold parse_octet at h
  split_ifs at h with h1 h2 h3 h4 h5
  exact (Option.some.inj h) ▸ h5

theorem parse_ipv4_int_lt (l : List Char) (m : Nat)
    (h : parse_ipv4_int l = some m) : m < 4294967296 := by
  unfold parse_ipv4_int at h
  split at h
  case _ a b c d heq =>
    cases hx : parse_octet a with
    | none => rw [hx] at h; simp at h
    | some x =>
      cases hy : parse_octet b with
      | none => rw [hx, hy] at h; simp at h
      | some y =>
        cases hz : parse_octet c with
        | none => rw [hx, hy, hz] at h; simp at h
        | some z =>
          cases hw : parse_octet d with
          | none => rw [hx, hy, hz, hw] at h; simp at h
          | some w =>
            rw [hx, hy, hz, hw] at h
            simp at h
            have bx := parse_octet_le a x hx
            have by' := parse_octet_le b y hy
            have bz := parse_octet_le c z hz
            have bw := parse_octet_le d w hw
            omega
  case _ => simp at h

theorem hexFold_lt (l : List Char) (acc : Nat)
    (h : ∀ c ∈ l, isHexDigitChar c = true) :
    l.foldl (fun a c => a * 16 + hexDigitVal c) acc < (acc + 1) * 16 ^ l.length := by
  induction l generalizing acc with
  | nil => simp
  | cons c rest ih =>
    have hc : hexDigitVal c < 16 := by
      have := h c (by simp)
      simp only [isHexDigitChar, Bool.or_eq_true, Bool.and_eq_true,
        decide_eq_true_eq] at this
      unfold hexDigitVal
      split_ifs <;> omega
    have hrest := ih (acc * 16 + hexDigitVal c) (fun x hx => h x (by simp [hx]))
    simp only [List.foldl_cons, List.length_cons]
    calc List.foldl (fun a c => a * 16 + hexDigitVal c) (acc * 16 + hexDigitVal c) rest
        < (acc * 16 + hexDigitVal c + 1) * 16 ^ rest.length := hrest
      _ ≤ ((acc + 1) * 16) * 16 ^ rest.length := by
          have : acc * 16 + hexDigitVal c + 1 ≤ (acc + 1) * 16 := by omega
          exact Nat.mul_le_mul_right _ this
      _ = (acc + 1) * 16 ^ (rest.length + 1) := by ring

theorem parse_hextet_lt (p : List Char) (n : Nat) (h : parse_hextet p = some n) :
    n < 65536 := by
  unfold parse_hextet at h
  split_ifs at h with h1 h2 h3
  have hall : ∀ c ∈ p, isHexDigitChar c = true := by
    intro c hc
    have h1b : p.all isHexDigitChar = true := by
      revert h1
      cases p.all isHexDigitChar <;> simp
    simpa using List.all_eq_true.mp h1b c hc
  have := hexFold_lt p 0 hall
  have hlen : 16 ^ p.length ≤ 16 ^ 4 := Nat.pow_le_pow_right (by norm_num) (by omega)
  have hn := Option.some.inj h
  unfold hexDigitsToNat at hn
  omega

theorem foldHextets_init_lt (ps : List (List Char)) (acc m : Nat)
    (h : foldHextets acc ps = some m) : m < (acc + 1) * 65536 ^ ps.length := by
  induction ps generalizing acc with
  | nil =>
    unfold foldHextets at h
    have := Option.some.inj h
    simp [← this]
  | cons p rest ih =>
    unfold foldHextets at h
    cases hp : parse_hextet p with
    | none => rw [hp] at h; simp at h
    | some hx =>
      rw [hp] at h
      have hrest := ih (acc * 65536 + hx) h
      have hxlt := parse_hextet_lt p hx hp
      simp only [List.length_cons]
      calc m < (acc * 65536 + hx + 1) * 65536 ^ rest.length := hrest
        _ ≤ ((acc + 1) * 65536) * 65536 ^ rest.length := by
            have : acc * 65536 + hx + 1 ≤ (acc + 1) * 65536 := by omega
            exact Nat.mul_le_mul_right _ this
        _ = (acc + 1) * 65536 ^ (rest.length + 1) := by ring

theorem hextets_hi_lo_lt (hi lo dh dl hiV m : Nat)
    (hdh : dh ≤ hi) (hdl : dl ≤ lo) (hs : hi + lo ≤ 7)
    (hhiV : hiV < 65536 ^ dh)
    (hm : m < (hiV * 2 ^ (16 * (8 - (hi + lo))) + 1) * 65536 ^ dl) :
    m < 340282366920938463463374607431768211456 := by
  have h16 : (65536 : Nat) = 2 ^ 16 := by norm_num
  have hA : hiV < 2 ^ (16 * hi) := by
    calc hiV < 65536 ^ dh := hhiV
      _ = 2 ^ (16 * dh) := by rw [h16, ← pow_mul, Nat.mul_comm 16 dh]
      _ ≤ 2 ^ (16 * hi) := Nat.pow_le_pow_right (by norm_num) (by omega)
  have hC : (65536 : Nat) ^ dl ≤ 2 ^ (16 * lo) := by
    calc (65536 : Nat) ^ dl = 2 ^ (16 * dl) := by
          rw [h16, ← pow_mul, Nat.mul_comm 16 dl]
      _ ≤ 2 ^ (16 * lo) := Nat.pow_le_pow_right (by norm_num) (by omega)
  have hB1 : 1 ≤ 2 ^ (16 * (8 - (hi + lo))) := Nat.one_le_two_pow
  have step1 : hiV * 2 ^ (16 * (8 - (hi + lo))) + 1 ≤
      2 ^ (16 * hi) * 2 ^ (16 * (8 - (hi + lo))) := by
    calc hiV * 2 ^ (16 * (8 - (hi + lo))) + 1
        ≤ hiV * 2 ^ (16 * (8 - (hi + lo))) + 2 ^ (16 * (8 - (hi + lo))) := by omega
      _ = (hiV + 1) * 2 ^ (16 * (8 - (hi + lo))) := by ring
      _ ≤ 2 ^ (16 * hi) * 2 ^ (16 * (8 - (hi + lo))) :=
          Nat.mul_le_mul_right _ (Nat.succ_le_of_lt hA)
  have hfin : 2 ^ (16 * hi) * 2 ^ (16 * (8 - (hi + lo))) * 2 ^ (16 * lo) =
      340282366920938463463374607431768211456 := by
    rw [← pow_add, ← pow_add]
    have : 16 * hi + 16 * (8 - (hi + lo)) + 16 * lo = 128 := by omega
    rw [this]
    norm_num
  calc m < (hiV * 2 ^ (16 * (8 - (hi + lo))) + 1) * 65536 ^ dl := hm
    _ ≤ (2 ^ (16 * hi) * 2 ^ (16 * (8 - (hi + lo)))) * 2 ^ (16 * lo) :=
        Nat.mul_le_mul step1 hC
    _ = 340282366920938463463374607431768211456 := hfin

theorem parse_ipv6_combine_lt (parts : List (List Char)) (hi lo m : Nat)
    (h : parse_ipv6_combine parts hi lo = some m) :
    m < 340282366920938463463374607431768211456 := by
  unfold parse_ipv6_combine at h
  split at h
  · simp at h
  · rename_i hs
    cases hhi : foldHextets 0 (parts.take hi) with
    | none => rw [hhi] at h; simp at h
    | some hiV =>
      rw [hhi] at h
      simp only [Option.bind_eq_bind, Option.some_bind] at h
      have h1 := foldHextets_init_lt _ _ _ hhi
      have h2 := foldHextets_init_lt _ _ _ h
      refine hextets_hi_lo_lt hi lo (parts.take hi).length
        (parts.drop (parts.length - lo)).length hiV m ?_ ?_ (by omega)
        (by simpa using h1) h2
      · simp only [List.length_take]
        omega
      · simp only [List.length_drop]
        omega

theorem parse_ipv6_skip_lt (parts : List (List Char)) (skip m : Nat)
    (h : parse_ipv6_skip parts skip = some m) :
    m < 340282366920938463463374607431768211456 := by
  simp only [parse_ipv6_skip] at h
  split_ifs at h <;> exact parse_ipv6_combine_lt _ _ _ _ h

theorem parse_ipv6_int_lt (l : List Char) (m : Nat)
    (h : parse_ipv6_int l = some m) :
    m < 340282366920938463463374607431768211456 := by
  simp only [parse_ipv6_int] at h
  split at h
  · simp at h
  · split at h
    · simp at h
    · split at h
      · simp at h
      · rename_i parts heq
        split at h
        · simp at h
        · split at h
          · split at h
            · simp at h
            · split at h
              · simp at h
              · split at h
                · simp at h
                · rename_i hlen h1 h2
                  have hlen8 : parts.length = 8 := by omega
                  have hfl := foldHextets_init_lt parts 0 m h
                  rw [hlen8] at hfl
                  norm_num at hfl
                  exact hfl
          · exact parse_ipv6_skip_lt _ _ _ h
          · simp at h

theorem parse_ipv6_network_inv (s : String) (net : IPNet)
    (h : parse_ipv6_network s = some net) :
    net.network_address < 340282366920938463463374607431768211456 ∧
      net.v6 = true := by
  unfold parse_ipv6_network at h
  split at h
  case _ a heq =>
    cases haz : splitScopeId a with
    | none => rw [haz] at h; simp at h
    | some az =>
      rw [haz] at h
      simp only [Option.bind_eq_bind, Option.some_bind] at h
      cases hip : parse_ipv6_int az.1 with
      | none => rw [hip] at h; simp at h
      | some ip =>
        rw [hip] at h
        simp at h
        rw [← h]
        exact ⟨parse_ipv6_int_lt _ _ hip, rfl⟩
  case _ a mstr heq =>
    cases haz : splitScopeId a with
    | none => rw [haz] at h; simp at h
    | some az =>
      rw [haz] at h
      simp only [Option.bind_eq_bind, Option.some_bind] at h
      cases hip : parse_ipv6_int az.1 with
      | none => rw [hip] at h; simp at h
      | some ip =>
        rw [hip] at h
        simp only [Option.bind_eq_bind, Option.some_bind] at h
        cases hp : prefix_from_prefix_string 128 mstr with
        | none => rw [hp] at h; simp at h
        | some p =>
          rw [hp] at h
          simp at h
          rw [← h]
          refine ⟨?_, rfl⟩
          calc ip / 2 ^ (128 - p) * 2 ^ (128 - p) ≤ ip := Nat.div_mul_le_self ip _
            _ < 340282366920938463463374607431768211456 :=
                parse_ipv6_int_lt _ _ hip
  case _ => simp at h

theorem parse_ipv4_network_inv (s : String) (net : IPNet)
    (h : parse_ipv4_network s = some net) :
    net.network_address < 4294967296 ∧ net.v6 = false := by
  unfold parse_ipv4_network at h
  split at h
  case _ a heq =>
    cases hip : parse_ipv4_int a with
    | none => rw [hip] at h; simp at h
    | some ip =>
      rw [hip] at h
      simp at h
      rw [← h]
      exact ⟨parse_ipv4_int_lt a ip hip, rfl⟩
  case _ a m heq =>
    cases hip : parse_ipv4_int a with
    | none => rw [hip] at h; simp at h
    | some ip =>
      rw [hip] at h
      simp only [Option.bind_eq_bind, Option.some_bind] at h
      cases hp : make_netmask m with
      | none => rw [hp] at h; simp at h
      | some p =>
        rw [hp] at h
        simp at h
        rw [← h]
        refine ⟨?_, rfl⟩
        calc ip / 2 ^ (32 - p) * 2 ^ (32 - p) ≤ ip := Nat.div_mul_le_self ip _
          _ < 4294967296 := parse_ipv4_int_lt a ip hip
  case _ => simp at h

theorem ip_network_address_lt (v : Value) (net : IPNet)
    (h : ip_network_of_value v = some net) :
    net.network_address < 2 ^ familyBits net := by
  cases v with
  | str s =>
    simp only [ip_network_of_value] at h
    cases h4 : parse_ipv4_network s with
    | some net4 =>
      rw [h4] at h
      simp at h
      subst h
      obtain ⟨hb, hv⟩ := parse_ipv4_network_inv s _ h4
      simpa [familyBits, hv] using hb
    | none =>
      rw [h4] at h
      obtain ⟨hb, hv⟩ := parse_ipv6_network_inv s net h
      simpa [familyBits, hv] using hb
  | int n =>
    simp only [ip_network_of_value] at h
    split at h
    · rename_i hcond
      simp at hcond h
      rw [← h]
      simp only [familyBits]
      norm_num
      omega
    · split at h
      · rename_i hcond
        simp at hcond h
        rw [← h]
        simp only [familyBits]
        norm_num
        omega
      · simp at h
  | bool bb =>
    simp only [ip_network_of_value] at h
    simp at h
    rw [← h]
    cases bb <;> simp [familyBits]
  | null => simp [ip_network_of_value] at h
  | list xs => simp [ip_network_of_value] at h
  | obj kvs => simp [ip_network_of_value] at h

theorem hexDigitChar_ne_dot (n : Nat) (h : n < 16) : hexDigitChar n ≠ '.' := by
  interval_cases n <;> decide

theorem natToHexChars_ne_dot (n : Nat) (c : Char) (hc : c ∈ natToHexChars n) :
    c ≠ '.' := by
  have hmod : ∀ m : Nat, m % 16 < 16 := fun m => Nat.mod_lt _ (by norm_num)
  unfold natToHexChars at hc
  split_ifs at hc with h1 h2 h3
  · simp at hc
    subst hc
    exact hexDigitChar_ne_dot n h1
  · simp at hc
    rcases hc with rfl | rfl
    · exact hexDigitChar_ne_dot _ ((Nat.div_lt_iff_lt_mul (by norm_num)).mpr (by omega))
    · exact hexDigitChar_ne_dot _ (hmod n)
  · simp at hc
    rcases hc with rfl | rfl | rfl
    · exact hexDigitChar_ne_dot _ ((Nat.div_lt_iff_lt_mul (by norm_num)).mpr (by omega))
    · exact hexDigitChar_ne_dot _ (hmod _)
    · exact hexDigitChar_ne_dot _ (hmod n)
  · simp at hc
    rcases hc with rfl | rfl | rfl | rfl
    · exact hexDigitChar_ne_dot _ (hmod _)
    · exact hexDigitChar_ne_dot _ (hmod _)
    · exact hexDigitChar_ne_dot _ (hmod _)
    · exact hexDigitChar_ne_dot _ (hmod n)

theorem joinColon_chars (parts : List String) (c : Char)
    (h : c ∈ (joinColon parts).data) :
    c = ':' ∨ ∃ p ∈ parts, c ∈ p.data := by
  induction parts with
  | nil => simp [joinColon] at h
  | cons s rest ih =>
    cases rest with
    | nil =>
      simp only [joinColon] at h
      exact Or.inr ⟨s, by simp, h⟩
    | cons t rts =>
      simp only [joinColon] at h
      rw [String.data_append, String.data_append] at h
      rcases List.mem_append.mp h with h2 | h2
      · rcases List.mem_append.mp h2 with h3 | h3
        · exact Or.inr ⟨s, by simp, h3⟩
        · left
          simpa using h3
      · rcases ih h2 with h3 | ⟨p, hp, hcp⟩
        · exact Or.inl h3
        · exact Or.inr ⟨p, by simp [hp], hcp⟩

theorem mem_pad_or (hs : List String) (t : String) (h : t ∈ hs ++ [""]) :
    t = "" ∨ t ∈ hs := by
  rcases List.mem_append.mp h with h | h
  · exact Or.inr h
  · simp at h
    exact Or.inl h

theorem compressHextets_mem (hs : List String) (s : String)
    (h : s ∈ compressHextets hs) : s = "" ∨ s ∈ hs := by
  have hmid : ∀ (A : List String) (i e : Nat),
      (∀ t ∈ A, t = "" ∨ t ∈ hs) → s ∈ A.take i ++ [""] ++ A.drop e →
      s = "" ∨ s ∈ hs := by
    intro A i e hA hmem
    rcases List.mem_append.mp hmem with h2 | h2
    · rcases List.mem_append.mp h2 with h3 | h3
      · exact hA s (List.mem_of_mem_take h3)
      · simp at h3
        exact Or.inl h3
    · exact hA s (List.mem_of_mem_drop h2)
  simp only [compressHextets] at h
  split_ifs at h with h1 h2 h3 h4
  · rcases List.mem_cons.mp h with rfl | h5
    · exact Or.inl rfl
    · exact hmid _ _ _ (fun t ht => mem_pad_or hs t ht) h5
  · rcases List.mem_cons.mp h with rfl | h5
    · exact Or.inl rfl
    · exact hmid _ _ _ (fun t ht => Or.inr ht) h5
  · exact hmid _ _ _ (fun t ht => mem_pad_or hs t ht) h
  · exact hmid _ _ _ (fun t ht => Or.inr ht) h
  · exact Or.inr h

theorem ipv6_string_no_dot (n : Nat) (c : Char)
    (h : c ∈ (ipv6_to_string n).data) : c ≠ '.' := by
  unfold ipv6_to_string at h
  rcases joinColon_chars _ _ h with rfl | ⟨p, hp, hcp⟩
  · decide
  · rcases compressHextets_mem _ _ hp with rfl | hp2
    · simp at hcp
    · unfold hextetStrings at hp2
      simp only [List.mem_cons, List.not_mem_nil, or_false] at hp2
      rcases hp2 with rfl | rfl | rfl | rfl | rfl | rfl | rfl | rfl <;>
        exact natToHexChars_ne_dot _ _ hcp

theorem rsplit_drop_last_eq_self (s : String)
    (h : ∀ c ∈ s.data, c ≠ '.') : rsplit_drop_last s = s := by
  unfold rsplit_drop_last
  have hd : List.dropWhile (fun c => !(c == '.')) s.data.reverse = [] := by
    rw [List.dropWhile_eq_nil_iff]
    intro c hc
    simp only [Bool.not_eq_true', beq_eq_false_iff_ne]
    exact h c (List.mem_reverse.mp hc)
  rw [hd]

/-- C2 counterexample: two parses the claim's wording does not survive.
For networks `[{"cidr": "255.255.255.255/32"}]` the CIDR parses (to the
all-ones IPv4 `/32` network), yet the namespace holds only `zpod_subnet`:
computing `network_address + 1` raises the caught `AddressValueError` (a
`ValueError`) after `zpod_subnet` was assigned, so `zpod_gateway`,
`zpod_netmask` and `zpod_netprefix` — which the claim requires — are
absent.  And for the IPv6 CIDR `fe80::/64`, `rsplit(".", 1)` finds no dot
in the address string, so `zpod_subnet` is the *whole* network-address
string `"fe80::"` rather than an address with its last component
removed. -/
theorem network_all_ones_counterexample :
    ip_network_of_value (Value.str "255.255.255.255/32") =
      some ⟨4294967295, 32, false, none⟩ ∧
    (build_template_context zpodAllOnesNetwork [] [] none).isSome = true ∧
    ctxGet zpodAllOnesNetwork [] [] none "zpod_subnet" =
      some (Value.str "255.255.255") ∧
    ctxGet zpodAllOnesNetwork [] [] none "zpod_gateway" = none ∧
    ctxGet zpodAllOnesNetwork [] [] none "zpod_netmask" = none ∧
    ctxGet zpodAllOnesNetwork [] [] none "zpod_netprefix" = none ∧
    ip_network_of_value (Value.str "fe80::/64") =
      some ⟨338288524927261089654018896841347694592, 64, true, none⟩ ∧
    ipv6_to_string 338288524927261089654018896841347694592 = "fe80::" ∧
    ctxGet zpodIPv6Network [] [] none "zpod_subnet" =
      some (Value.str "fe80::") :=
  ⟨rfl, rfl, rfl, rfl, rfl, rfl, rfl, rfl, rfl⟩

/-- C2 amended: when the first network's `cidr` parses as an IPv4 or IPv6
network (non-strict) whose network address is not the family's all-ones
address (so the gateway increment stays inside the address space), the
namespace holds the four derived keys: `zpod_subnet` is the network-address
string with its part after the last *dot* removed — which for an unscoped
IPv6 network, whose address string contains no dot, is the unmodified
address string —, `zpod_gateway` the stringified network address plus one,
`zpod_netmask` the netmask string, and `zpod_netprefix` the integer prefix
length. -/
theorem network_derivation_values
    (zkvs nkvs : List (String × Value)) (rest : List Value)
    (dns settings : List Value)
    (sb : List (String × Value) × List (String × Value))
    (cz : List (String × Value) × Value) (nameV : Value) (net : IPNet)
    (hnets : objGetD zkvs "networks" (Value.list []) = Value.list (Value.obj nkvs :: rest))
    (hparse : ip_network_of_value (objGetD nkvs "cidr" (Value.str "")) = some net)
    (hov : net.network_address ≠ 2 ^ familyBits net - 1)
    (hs : settingsStep settings = some sb)
    (hc : componentsStep (objGetD zkvs "components" (Value.list [])) = some cz)
    (hname : dictGet zkvs "name" = some nameV) :
    (ctxGet (Value.obj zkvs) dns settings none "zpod_subnet" =
      some (Value.str (rsplit_drop_last (netAddressString net))) ∧
    ctxGet (Value.obj zkvs) dns settings none "zpod_gateway" =
      some (Value.str (addressString net.v6 (net.network_address + 1))) ∧
    ctxGet (Value.obj zkvs) dns settings none "zpod_netmask" =
      some (Value.str (netmaskString net)) ∧
    ctxGet (Value.obj zkvs) dns settings none "zpod_netprefix" =
      some (Value.int net.prefixlen)) ∧
    (net.v6 = true → net.scope = none →
      rsplit_drop_last (netAddressString net) = netAddressString net) := by
  have hlt := ip_network_address_lt _ net hparse
  have hone : 1 ≤ 2 ^ familyBits net := Nat.one_le_two_pow
  have hov' : net.network_address + 1 < 2 ^ familyBits net := by omega
  have hn : networkStep (objGetD zkvs "networks" (Value.list [])) =
      some [("zpod_subnet", Value.str (rsplit_drop_last (netAddressString net))),
            ("zpod_gateway", Value.str (addressString net.v6 (net.network_address + 1))),
            ("zpod_netmask", Value.str (netmaskString net)),
            ("zpod_netprefix", Value.int net.prefixlen)] := by
    rw [hnets]
    simp [networkStep, truthy, hparse, hov']
  have hb := build_eq zkvs dns settings none sb _ cz nameV hs hn hc hname
  refine ⟨⟨?_, ?_, ?_, ?_⟩, ?_⟩
  pick_goal 5
  · intro hv6 hscope
    apply rsplit_drop_last_eq_self
    intro c hcmem
    simp only [netAddressString, hscope, addressString, hv6, if_true,
      String.data_append] at hcmem
    rcases List.mem_append.mp hcmem with hcmem | hcmem
    · exact ipv6_string_no_dot _ _ hcmem
    · simp at hcmem
  all_goals
  · unfold ctxGet
    rw [hb]
    simp only [Option.some_bind]
    rw [dictGet_append_left _ _ _ (by rfl)]
    rw [dictGet_append_left _ _ _ (by simp [infraContext, dictGet])]
    rw [dictGet_append_left _ _ _ (dictGet_none_of_component_keys _ cz hc _
      (fun x => string_append_ne_of_not_isPrefixOf _ _ (by decide) x))]
    apply dictGet_append_right
    simp [dictGet]

/-- C2 witness: the specification's `10.1.2.3/24` example yields
`"10.1.2"`, `"10.1.2.1"`, `"255.255.255.0"` and `24`; the IPv6 network
`fe80::/64` yields `"fe80::"` (the unmodified address string),
`"fe80::1"`, `"ffff:ffff:ffff:ffff::"` and `64`. -/
theorem network_derivation_values_witness :
    (ctxGet zpodExampleNetwork [] [] none "zpod_subnet" = some (Value.str "10.1.2") ∧
    ctxGet zpodExampleNetwork [] [] none "zpod_gateway" = some (Value.str "10.1.2.1") ∧
    ctxGet zpodExampleNetwork [] [] none "zpod_netmask" =
      some (Value.str "255.255.255.0") ∧
    ctxGet zpodExampleNetwork [] [] none "zpod_netprefix" = some (Value.int 24)) ∧
    (ctxGet zpodIPv6Network [] [] none "zpod_subnet" = some (Value.str "fe80::") ∧
    ctxGet zpodIPv6Network [] [] none "zpod_gateway" = some (Value.str "fe80::1") ∧
    ctxGet zpodIPv6Network [] [] none "zpod_netmask" =
      some (Value.str "ffff:ffff:ffff:ffff::") ∧
    ctxGet zpodIPv6Network [] [] none "zpod_netprefix" = some (Value.int 64)) := by
  have h := network_derivation_values
    [("name", Value.str "demo"),
     ("networks", Value.list [Value.obj [("cidr", Value.str "10.1.2.3/24")]])]
    [("cidr", Value.str "10.1.2.3/24")] [] [] [] ([], []) ([], Value.null)
    (Value.str "demo") ⟨167838208, 24, false, none⟩ rfl rfl (by decide) rfl rfl rfl
  have h6 := network_derivation_values
    [("name", Value.str "demo"),
     ("networks", Value.list [Value.obj [("cidr", Value.str "fe80::/64")]])]
    [("cidr", Value.str "fe80::/64")] [] [] [] ([], []) ([], Value.null)
    (Value.str "demo")
    ⟨338288524927261089654018896841347694592, 64, true, none⟩
    rfl rfl (by decide) rfl rfl rfl
  exact ⟨⟨h.1.1, h.1.2.1, h.1.2.2.1, h.1.2.2.2⟩,
         ⟨h6.1.1, h6.1.2.1, h6.1.2.2.1, h6.1.2.2.2⟩⟩

/-- C9 counterexample: with empty collections the namespace also always
contains `zpod_ntp` (set to null from the empty settings lookup), a key that
is neither a root passthrough key nor one of the three literal-derived keys
the claim says are exactly present. -/
theorem empty_zpod_namespace_has_ntp_key :
    (build_template_context zpodNameOnly [] [] none).isSome = true ∧
    hasKey ((build_template_context zpodNameOnly [] [] none).getD []) "zpod_ntp" = true ∧
    "zpod_ntp" ∉ rootPassthroughKeys ++ ["zpod_portgroup", "zpod_dns", "zpod_nfs"] :=
  ⟨rfl, rfl, by decide⟩

/-- C9 amended: with empty networks, components, settings and DNS records
and no extra variables, the namespace contains every root passthrough key,
the five computed infrastructure keys — with `zpod_dns`, `zpod_nfs`,
`zpod_ntp` and `zpod_sshkey` null — and nothing else. -/
theorem empty_collections_namespace
    (zkvs : List (String × Value)) (nameV : Value)
    (hname : dictGet zkvs "name" = some nameV)
    (hnets : objGetD zkvs "networks" (Value.list []) = Value.list [])
    (hcomps : objGetD zkvs "components" (Value.list []) = Value.list [])
    (ctx : List (String × Value))
    (hb : build_template_context (Value.obj zkvs) [] [] none = some ctx) :
    (∀ k ∈ rootPassthroughKeys, hasKey ctx k = true) ∧
    (∀ k ∈ infraKeys, hasKey ctx k = true) ∧
    dictGet ctx "zpod_dns" = some Value.null ∧
    dictGet ctx "zpod_nfs" = some Value.null ∧
    dictGet ctx "zpod_ntp" = some Value.null ∧
    dictGet ctx "zpod_sshkey" = some Value.null ∧
    (∀ k, hasKey ctx k = true → k ∈ rootPassthroughKeys ∨ k ∈ infraKeys) := by
  have hn : networkStep (objGetD zkvs "networks" (Value.list [])) = some [] := by
    rw [hnets]; rfl
  have hc : componentsStep (objGetD zkvs "components" (Value.list [])) =
      some ([], Value.null) := by
    rw [hcomps]; rfl
  have hb' := build_eq zkvs [] [] none ([], []) [] ([], Value.null) nameV rfl hn hc hname
  rw [hb'] at hb
  have hctx : ctx = rootContext zkvs [] [] ++ infraContext nameV Value.null [] := by
    have := Option.some.inj hb
    rw [← this]
    simp
  subst hctx
  refine ⟨?_, ?_, ?_, ?_, ?_, ?_, ?_⟩
  · intro k hk
    simp only [rootPassthroughKeys, List.mem_cons, List.not_mem_nil, or_false] at hk
    rcases hk with rfl | rfl | rfl | rfl | rfl | rfl | rfl | rfl | rfl | rfl | rfl |
      rfl | rfl | rfl | rfl | rfl <;>
      simp [hasKey, dictGet_append, rootContext, infraContext, dictGet]
  · intro k hk
    simp only [infraKeys, List.mem_cons, List.not_mem_nil, or_false] at hk
    rcases hk with rfl | rfl | rfl | rfl | rfl <;>
      simp [hasKey, dictGet_append, rootContext, infraContext, dictGet]
  · exact dictGet_append_right _ _ _ _ (by simp [infraContext, dictGet])
  · exact dictGet_append_right _ _ _ _ (by simp [infraContext, dictGet])
  · exact dictGet_append_right _ _ _ _ (by simp [infraContext, dictGet, objGetD])
  · exact dictGet_append_right _ _ _ _ (by simp [infraContext, dictGet, objGetD])
  · intro k hk
    rcases hasKey_append _ _ _ hk with hk | hk
    · exact Or.inl (mem_keys_of_dictGet_isSome _ _ hk)
    · exact Or.inr (mem_keys_of_dictGet_isSome _ _ hk)

/-- C9 witness: the name-only zPod (everything else empty or absent) shows
the amended key inventory on a concrete input. -/
theorem empty_collections_namespace_witness :
    hasKey ((build_template_context zpodNameOnly [] [] none).getD []) "zpod_name" = true ∧
    hasKey ((build_template_context zpodNameOnly [] [] none).getD []) "zpod_portgroup" = true ∧
    dictGet ((build_template_context zpodNameOnly [] [] none).getD []) "zpod_ntp" =
      some Value.null := by
  have h := empty_collections_namespace [("name", Value.str "mypod")]
    (Value.str "mypod") rfl rfl rfl
    ((build_template_context zpodNameOnly [] [] none).getD []) rfl
  exact ⟨h.1 "zpod_name" (by simp [rootPassthroughKeys]),
         h.2.1 "zpod_portgroup" (by simp [infraKeys]),
         h.2.2.2.2.1⟩

theorem settingsStep_singleton (t : Value) (c b : List (String × Value))
    (he : settingEntry t = some (c, b)) : settingsStep [t] = some (c, b) := by
  rw [settingsStep_cons, he]
  simp [settingsStep]

theorem settingsStep_append_inv (xs ys : List Value)
    (sb : List (String × Value) × List (String × Value))
    (h : settingsStep (xs ++ ys) = some sb) :
    ∃ sb1 sb2, settingsStep xs = some sb1 ∧ settingsStep ys = some sb2 ∧
      sb.1 = sb1.1 ++ sb2.1 ∧ sb.2 = sb1.2 ++ sb2.2 := by
  rw [settingsStep_append] at h
  cases h1 : settingsStep xs with
  | none => rw [h1] at h; simp at h
  | some sb1 =>
    cases h2 : settingsStep ys with
    | none => rw [h1, h2] at h; simp at h
    | some sb2 =>
      rw [h1, h2] at h
      simp at h
      exact ⟨sb1, sb2, rfl, rfl, by rw [← h], by rw [← h]⟩

theorem componentsFold_append_inv (xs ys : List Value) (z : Value)
    (csz : List (String × Value) × Value)
    (h : componentsFold (xs ++ ys) z = some csz) :
    ∃ c1 z1 c2, componentsFold xs z = some (c1, z1) ∧
      componentsFold ys z1 = some (c2, csz.2) ∧ csz.1 = c1 ++ c2 := by
  induction xs generalizing z csz with
  | nil =>
    refine ⟨[], z, csz.1, rfl, ?_, rfl⟩
    rw [List.nil_append] at h
    rw [h]
  | cons hd xs ih =>
    cases he : componentEntry hd with
    | none =>
      rw [List.cons_append, componentsFold_cons_none hd (xs ++ ys) z he] at h
      simp at h
    | some cu =>
      obtain ⟨c, upd⟩ := cu
      rw [List.cons_append, componentsFold_cons_some hd (xs ++ ys) z c upd he] at h
      cases ht : componentsFold (xs ++ ys) (upd.getD z) with
      | none => rw [ht] at h; simp at h
      | some csz' =>
        rw [ht] at h
        simp at h
        obtain ⟨c1, z1, c2, h1, h2, hsplit⟩ := ih (upd.getD z) csz' ht
        refine ⟨c ++ c1, z1, c2, ?_, ?_, ?_⟩
        · rw [componentsFold_cons_some hd xs z c upd he, h1]
        · rw [← h]
          exact h2
        · rw [← h]
          simp only []
          rw [hsplit, List.append_assoc]

theorem setting_key_not_mem_infra (x : String) :
    ("zpod_setting_" ++ x) ∉ infraKeys := by
  intro h
  simp [infraKeys] at h
  rcases h with h | h | h | h | h <;>
    exact string_append_ne_of_not_isPrefixOf _ _ (by decide) x h

theorem setting_key_not_mem_network (x : String) :
    ("zpod_setting_" ++ x) ∉ networkDerivedKeys := by
  intro h
  simp [networkDerivedKeys] at h
  rcases h with h | h | h | h <;>
    exact string_append_ne_of_not_isPrefixOf _ _ (by decide) x h

theorem component_key_not_mem_infra (x : String) :
    ("zpod_component_" ++ x) ∉ infraKeys := by
  intro h
  simp [infraKeys] at h
  rcases h with h | h | h | h | h <;>
    exact string_append_ne_of_not_isPrefixOf _ _ (by decide) x h

theorem component_key_not_mem_network (x : String) :
    ("zpod_component_" ++ x) ∉ networkDerivedKeys := by
  intro h
  simp [networkDerivedKeys] at h
  rcases h with h | h | h | h <;>
    exact string_append_ne_of_not_isPrefixOf _ _ (by decide) x h

/-- C6: duplicate setting names and duplicate (sanitized) component names
are resolved last-wins — the final `zpod_setting_<sanitized>` value and the
internal by-name lookup take the later setting's value, the final
`zpod_component_<sanitized>` value takes the later component's full mapping,
and the tracked zbox ip takes the last zbox occurrence's ip. -/
theorem duplicate_names_last_wins :
    (∀ (zkvs : List (String × Value)) (dns : List Value)
        (pre mid post : List Value) (kvs1 kvs2 : List (String × Value))
        (n : String)
        (sb : List (String × Value) × List (String × Value))
        (netCtx : List (String × Value)) (cz : List (String × Value) × Value)
        (nameV : Value),
      n ≠ "" →
      objGetD kvs1 "name" (Value.str "") = Value.str n →
      objGetD kvs2 "name" (Value.str "") = Value.str n →
      settingsStep (pre ++ ((Value.obj kvs1 :: mid) ++ (Value.obj kvs2 :: post))) = some sb →
      (∀ t ∈ post, ("zpod_setting_" ++ sanitize_component_name n) ∉ settingCtxKeys t) →
      (∀ t ∈ post, n ∉ settingByNames t) →
      networkStep (objGetD zkvs "networks" (Value.list [])) = some netCtx →
      componentsStep (objGetD zkvs "components" (Value.list [])) = some cz →
      dictGet zkvs "name" = some nameV →
      dictGet sb.2 n = some (objGetD kvs2 "value" Value.null) ∧
      ctxGet (Value.obj zkvs) dns
          (pre ++ ((Value.obj kvs1 :: mid) ++ (Value.obj kvs2 :: post)))
          none ("zpod_setting_" ++ sanitize_component_name n) =
        some (objGetD kvs2 "value" Value.null)) ∧
    (∀ (zkvs : List (String × Value)) (dns settings : List Value)
        (pre mid post : List Value)
        (kvs1 ikvs1 kvs2 ikvs2 : List (String × Value)) (n1 n2 : String)
        (sb : List (String × Value) × List (String × Value))
        (netCtx : List (String × Value)) (cz : List (String × Value) × Value)
        (nameV : Value),
      n1 ≠ "" →
      n2 ≠ "" →
      objGetD kvs1 "component" (Value.obj []) = Value.obj ikvs1 →
      objGetD ikvs1 "component_name" (Value.str "") = Value.str n1 →
      objGetD kvs2 "component" (Value.obj []) = Value.obj ikvs2 →
      objGetD ikvs2 "component_name" (Value.str "") = Value.str n2 →
      sanitize_component_name n1 = sanitize_component_name n2 →
      objGetD zkvs "components" (Value.list []) =
        Value.list (pre ++ ((Value.obj kvs1 :: mid) ++ (Value.obj kvs2 :: post))) →
      (∀ t ∈ post, ("zpod_component_" ++ sanitize_component_name n2) ∉ componentCtxKeys t) →
      settingsStep settings = some sb →
      networkStep (objGetD zkvs "networks" (Value.list [])) = some netCtx →
      componentsStep (objGetD zkvs "components" (Value.list [])) = some cz →
      dictGet zkvs "name" = some nameV →
      ctxGet (Value.obj zkvs) dns settings none
          ("zpod_component_" ++ sanitize_component_name n2) = some (Value.obj kvs2) ∧
      (n2 = "zbox" → (∀ t ∈ post, isZboxComponent t = false) →
        ctxGet (Value.obj zkvs) dns settings none "zpod_dns" =
          some (objGetD kvs2 "ip" Value.null))) := by
  constructor
  · intro zkvs dns pre mid post kvs1 kvs2 n sb netCtx cz nameV hne h1 h2 hset
      hpostK hpostN hnet hcomp hnameK
    have he2 : settingEntry (Value.obj kvs2) =
        some ([("zpod_setting_" ++ sanitize_component_name n, objGetD kvs2 "value" Value.null)],
              [(n, objGetD kvs2 "value" Value.null)]) := by
      simp [settingEntry, h2, hne]
    obtain ⟨sbP, sbR, hP, hR, hc1, hc2⟩ :=
      settingsStep_append_inv pre ((Value.obj kvs1 :: mid) ++ (Value.obj kvs2 :: post)) sb hset
    obtain ⟨sbA, sbT, hA, hT, hd1, hd2⟩ :=
      settingsStep_append_inv (Value.obj kvs1 :: mid) (Value.obj kvs2 :: post) sbR hR
    rw [settingsStep_cons, he2] at hT
    cases hPost : settingsStep post with
    | none => rw [hPost] at hT; simp at hT
    | some sbPost =>
      rw [hPost] at hT
      simp only [Option.some.injEq] at hT
      have hpost1 : dictGet sbPost.1
          ("zpod_setting_" ++ sanitize_component_name n) = none :=
        settingsStep_ctx_get_none post sbPost hPost _ hpostK
      have hpost2 : dictGet sbPost.2 n = none :=
        settingsStep_byname_get_none post sbPost hPost n hpostN
      have hT1 : sbT.1 =
          ("zpod_setting_" ++ sanitize_component_name n, objGetD kvs2 "value" Value.null)
            :: sbPost.1 := by rw [← hT]; rfl
      have hT2 : sbT.2 = (n, objGetD kvs2 "value" Value.null) :: sbPost.2 := by
        rw [← hT]
        rfl
      have hlookT1 : dictGet sbT.1 ("zpod_setting_" ++ sanitize_component_name n) =
          some (objGetD kvs2 "value" Value.null) := by
        rw [hT1]
        simp [dictGet, hpost1]
      have hlookT2 : dictGet sbT.2 n = some (objGetD kvs2 "value" Value.null) := by
        rw [hT2]
        simp [dictGet, hpost2]
      have hlook1 : dictGet sb.1 ("zpod_setting_" ++ sanitize_component_name n) =
          some (objGetD kvs2 "value" Value.null) := by
        rw [hc1]
        apply dictGet_append_right
        rw [hd1]
        exact dictGet_append_right _ _ _ _ hlookT1
      have hlook2 : dictGet sb.2 n = some (objGetD kvs2 "value" Value.null) := by
        rw [hc2]
        apply dictGet_append_right
        rw [hd2]
        exact dictGet_append_right _ _ _ _ hlookT2
      refine ⟨hlook2, ?_⟩
      unfold ctxGet
      rw [build_eq zkvs dns _ none sb netCtx cz nameV hset hnet hcomp hnameK]
      simp only [Option.some_bind]
      rw [dictGet_append_left _ _ _ (by rfl)]
      rw [dictGet_append_left _ _ _ (by
        apply dictGet_eq_none_of_not_mem_keys
        intro hmem
        exact setting_key_not_mem_infra _ hmem)]
      rw [dictGet_append_left _ _ _ (dictGet_none_of_component_keys _ cz hcomp _
        (fun y h => setting_key_ne_component_key _ y h.symm))]
      rw [dictGet_append_left _ _ _ (dictGet_none_of_network_keys _ netCtx hnet _
        (setting_key_not_mem_network _))]
      exact dictGet_append_right _ _ _ _ hlook1
  · intro zkvs dns settings pre mid post kvs1 ikvs1 kvs2 ikvs2 n1 n2 sb netCtx cz nameV
      hne1 hne2 hc1 hn1 hc2 hn2 hsan hcomps hpostK hset hnet hcomp hnameK
    have he2 : componentEntry (Value.obj kvs2) =
        some ([("zpod_component_" ++ sanitize_component_name n2, Value.obj kvs2)],
              if n2 = "zbox" then some (objGetD kvs2 "ip" Value.null) else none) := by
      simp [componentEntry, hc2, hn2, hne2]
    have hfold : componentsFold
        (pre ++ ((Value.obj kvs1 :: mid) ++ (Value.obj kvs2 :: post))) Value.null =
        some cz := by
      rw [hcomps] at hcomp
      simpa [componentsStep] using hcomp
    obtain ⟨cP, z1, cR, hP, hR, hsplit⟩ :=
      componentsFold_append_inv pre ((Value.obj kvs1 :: mid) ++ (Value.obj kvs2 :: post))
        Value.null cz hfold
    obtain ⟨cA, z2, cT, hA, hT, hsplit2⟩ :=
      componentsFold_append_inv (Value.obj kvs1 :: mid) (Value.obj kvs2 :: post) z1
        (cR, cz.2) hR
    rw [componentsFold_cons_some _ _ _ _ _ he2] at hT
    cases hPost : componentsFold post
        ((if n2 = "zbox" then some (objGetD kvs2 "ip" Value.null) else none).getD z2) with
    | none => rw [hPost] at hT; simp at hT
    | some czPost =>
      rw [hPost] at hT
      simp only [Option.some.injEq] at hT
      have hpostNone : dictGet czPost.1
          ("zpod_component_" ++ sanitize_component_name n2) = none :=
        componentsFold_ctx_get_none post _ czPost hPost _ hpostK
      have hT1 : cT = ("zpod_component_" ++ sanitize_component_name n2, Value.obj kvs2)
          :: czPost.1 := by
        have := congrArg Prod.fst hT
        simpa using this.symm
      have hlookT : dictGet cT ("zpod_component_" ++ sanitize_component_name n2) =
          some (Value.obj kvs2) := by
        rw [hT1]
        simp [dictGet, hpostNone]
      have hlook : dictGet cz.1 ("zpod_component_" ++ sanitize_component_name n2) =
          some (Value.obj kvs2) := by
        rw [hsplit]
        apply dictGet_append_right
        have hsplit2' : cR = cA ++ cT := hsplit2
        rw [hsplit2']
        exact dictGet_append_right _ _ _ _ hlookT
      have hb := build_eq zkvs dns settings none sb netCtx cz nameV hset hnet
        (by rw [hcomps]; simpa [componentsStep] using hfold) hnameK
      constructor
      · unfold ctxGet
        rw [hb]
        simp only [Option.some_bind]
        rw [dictGet_append_left _ _ _ (by rfl)]
        rw [dictGet_append_left _ _ _ (by
          apply dictGet_eq_none_of_not_mem_keys
          intro hmem
          exact component_key_not_mem_infra _ hmem)]
        exact dictGet_append_right _ _ _ _ hlook
      · intro hzb hpostZ
        subst hzb
        have hzb2 : isZboxComponent (Value.obj kvs2) = true := by
          simp [isZboxComponent, hc2, hn2]
        have hcz2 : cz.2 = objGetD kvs2 "ip" Value.null := by
          rw [componentsFold_zbox _ Value.null cz hfold]
          have hpn : List.filter isZboxComponent post = [] :=
            List.filter_eq_nil_iff.mpr (fun t ht => by simp [hpostZ t ht])
          have hfilter : List.filter isZboxComponent
              (pre ++ ((Value.obj kvs1 :: mid) ++ (Value.obj kvs2 :: post))) =
              List.filter isZboxComponent (pre ++ (Value.obj kvs1 :: mid)) ++
                [Value.obj kvs2] := by
            rw [← List.append_assoc, List.filter_append,
              List.filter_cons_of_pos hzb2, hpn]
          rw [hfilter, List.getLast?_concat]
          rfl
        unfold ctxGet
        rw [hb]
        simp only [Option.some_bind]
        rw [dictGet_append_left _ _ _ (by rfl)]
        apply dictGet_append_right
        rw [← hcz2]
        simp [infraContext, dictGet]

/-- C6 witness: two settings named zpodfactory_host, and two components
whose raw names "Zbox" and "zbox" share the sanitized key, resolve
last-wins on a concrete build. -/
theorem duplicate_names_last_wins_witness :
    ctxGet (Value.obj [("name", Value.str "demo")]) [] duplicateSettings none
        "zpod_setting_zpodfactory_host" = some (Value.str "ntp.local") ∧
    ctxGet zpodMixedZbox [] [] none "zpod_component_zbox" = some zboxSecondComponent ∧
    ctxGet zpodMixedZbox [] [] none "zpod_dns" = some (Value.str "10.1.2.99") := by
  have hs := duplicate_names_last_wins.1 [("name", Value.str "demo")] [] [] [] []
    [("name", Value.str "zpodfactory_host"), ("value", Value.str "old.local")]
    [("name", Value.str "zpodfactory_host"), ("value", Value.str "ntp.local")]
    "zpodfactory_host"
    ([("zpod_setting_zpodfactory_host", Value.str "old.local"),
      ("zpod_setting_zpodfactory_host", Value.str "ntp.local")],
     [("zpodfactory_host", Value.str "old.local"),
      ("zpodfactory_host", Value.str "ntp.local")])
    [] ([], Value.null) (Value.str "demo")
    (by decide) rfl rfl rfl (by simp) (by simp) rfl rfl rfl
  have hcpart := duplicate_names_last_wins.2
    [("name", Value.str "demo"),
     ("components", Value.list [mixedCaseZboxComponent, zboxSecondComponent])]
    [] [] [] [] []
    [("component", Value.obj [("component_name", Value.str "Zbox")]),
     ("ip", Value.str "10.1.2.10")]
    [("component_name", Value.str "Zbox")]
    [("component", Value.obj [("component_name", Value.str "zbox")]),
     ("ip", Value.str "10.1.2.99")]
    [("component_name", Value.str "zbox")]
    "Zbox" "zbox" ([], [])
    [] ([("zpod_component_zbox", mixedCaseZboxComponent),
        ("zpod_component_zbox", zboxSecondComponent)], Value.str "10.1.2.99")
    (Value.str "demo")
    (by decide) (by decide) rfl rfl rfl rfl (by decide) rfl (by simp) rfl rfl rfl rfl
  exact ⟨hs.2, hcpart.1, hcpart.2 rfl (by simp)⟩
